import Mathlib

/-!
Shallow embedding of the TinyGo runtime hashmap (`src/runtime/hashmap.go`).

Modelling conventions:
* Raw memory is modelled by `List Nat`, one `Nat` per byte.  A key cell is a
  list of `keySize` bytes, a value cell a list of `valueSize` bytes.
* `memcpy`/`memzero`/`memequal` are the byte primitives the runtime consumes;
  they act on prefixes of the byte lists, like the real primitives act on the
  first `n` bytes behind a pointer.
* A bucket (`hashmapBucket` in Go: a `tophash` array of 8 bytes, a `next`
  pointer, 8 key cells, 8 value cells) is modelled as a list of 8 slots, each
  slot holding its tophash byte, key cell and value cell.  The `next` pointer
  chain is modelled by a list of buckets (`hashmapChain`), whose head is the
  primary bucket.
* `uintptr` values are modelled by `Nat`.  The pointer width is fixed to the
  64-bit target (`ptrBits = 64`); 32-bit targets differ only in this constant.
  Arithmetic that can overflow a `uintptr` in the source (`count`, shifts by
  `bucketBits ≤ 62`) stays far below `2^64` in every table the runtime can
  build, so it is modelled without a wrap.
* The external byte hash `hash32(ptr, n, seed)` is an arbitrary parameter of
  type `List Nat → Nat → Nat → Nat` (bytes, n, seed).  The external RNG
  `fastrand` is modelled by explicit seed parameters (`seed` for `make`, a
  `freshSeed` oracle for `grow`).
* The identity of the buckets allocation (the `unsafe.Pointer` value of
  `m.buckets`, compared by the iterator against its snapshot) is modelled by
  the extra field `bucketsId`; `grow` allocates a fresh array, modelled by
  incrementing the id.
-/

/-- One byte-hash function: `hash32 (bytes) (n) (seed)`, the external
non-cryptographic 32-bit hash the runtime consumes. -/
abbrev ByteHash := List Nat → Nat → Nat → Nat

/-- `memcpy dst src n`: the first `n` bytes of `dst` are replaced by the first
`n` bytes of `src`. -/
def memcpy (dst src : List Nat) (n : Nat) : List Nat :=
  src.take n ++ dst.drop n

/-- `memzero dst n`: the first `n` bytes of `dst` are set to zero. -/
def memzero (dst : List Nat) (n : Nat) : List Nat :=
  List.replicate n 0 ++ dst.drop n

/-- `memequal x y n`: the first `n` bytes of `x` and `y` agree. -/
def memequal (x y : List Nat) (n : Nat) : Bool :=
  x.take n == y.take n

/-- One slot of a bucket: its tophash byte, its key cell and its value cell.
In Go these live in the three regions of a `hashmapBucket` allocation
(`tophash [8]uint8`, 8 key cells, 8 value cells) at a common slot index. -/
structure hashmapSlot where
  tophash : Nat
  key : List Nat
  val : List Nat
deriving Repr, DecidableEq

/-- A bucket holds 8 slots (the `tophash` array, key cells and value cells of
one `hashmapBucket` allocation). -/
abbrev hashmapBucket := List hashmapSlot

/-- An overflow chain: the primary bucket followed by the buckets reached
through the `next` pointers. -/
abbrev hashmapChain := List hashmapBucket

/-- A zero-filled slot, as produced by `alloc` (which zero-initialises). -/
def emptySlot (keySize valueSize : Nat) : hashmapSlot :=
  { tophash := 0, key := List.replicate keySize 0, val := List.replicate valueSize 0 }

/-- A zero-filled bucket of 8 slots, as produced by `alloc`. -/
def emptyBucket (keySize valueSize : Nat) : hashmapBucket :=
  List.replicate 8 (emptySlot keySize valueSize)

/-- The underlying hashmap structure (struct `hashmap` in the source).
`buckets` is the array of `1 <<< bucketBits` chains; `bucketsId` models the
identity of that allocation (see the header comment). -/
structure hashmap where
  buckets : List hashmapChain
  bucketsId : Nat
  seed : Nat
  count : Nat
  keySize : Nat
  valueSize : Nat
  bucketBits : Nat
  keyEqual : List Nat → List Nat → Nat → Bool
  keyHash : List Nat → Nat → Nat → Nat

/-- Pointer width in bits of the modelled target:
`unsafe.Sizeof(uintptr(0)) * 8 = 64`. -/
def ptrBits : Nat := 64

/-- `hashmapTopHash`: topmost 8 bits of the 32-bit hash, bumped to 1 when the
byte would be 0 (0 marks an empty slot). -/
def hashmapTopHash (hash : Nat) : Nat :=
  let tophash := (hash >>> 24) % 256
  if tophash < 1 then tophash + 1 else tophash

/-- `hashmapHasSpaceToGrow`: growth is allowed while
`bucketBits <= (sizeof(uintptr)*8) - 3`. -/
def hashmapHasSpaceToGrow (bucketBits : Nat) : Bool :=
  bucketBits ≤ ptrBits - 3

/-- `hashmapOverLoadFactor`: `n` exceeds `6 << bucketBits`
(load factor 0.75 over buckets of 8 slots). -/
def hashmapOverLoadFactor (n bucketBits : Nat) : Bool :=
  6 <<< bucketBits < n

/-- The `bucketBits` selection loop of `hashmapMake`: starting from `b`,
increment while there is space to grow and `sizeHint` is over the load
factor. -/
def hashmapMakeBits (sizeHint b : Nat) : Nat :=
  if hashmapHasSpaceToGrow b && hashmapOverLoadFactor sizeHint b then
    hashmapMakeBits sizeHint (b + 1)
  else b
termination_by ptrBits - b
decreasing_by
  simp only [hashmapHasSpaceToGrow, Bool.and_eq_true, decide_eq_true_eq, ptrBits] at *
  omega

/-- The key-discipline selector (`hashmapAlgorithm` in the source). -/
inductive hashmapAlgorithm where
  | binary
  | string
  | interface
deriving Repr, DecidableEq

/-- `hashmapStringEqual`: string keys compare by string value.  A string key
cell is modelled by the string's contents (the source stores a string header
and dereferences it). -/
def hashmapStringEqual (x y : List Nat) (_n : Nat) : Bool :=
  x == y

/-- `hashmapStringPtrHash`: hash the bytes of the string's contents.  As for
`hashmapStringEqual`, the header dereference is modelled by the key cell
holding the contents directly. -/
def hashmapStringPtrHash (hash32 : ByteHash) (sptr : List Nat) (_size seed : Nat) : Nat :=
  hash32 sptr sptr.length seed

/-- `hashmapStringHash`: hash a string value. -/
def hashmapStringHash (hash32 : ByteHash) (s : List Nat) (seed : Nat) : Nat :=
  hash32 s s.length seed

/-- `hashmapKeyEqualAlg`: the equality operator bound by `hashmapMake`.
The interface discipline's `hashmapInterfaceEqual` needs the runtime's dynamic
value equality, which is supplied as the parameter `ieq`. -/
def hashmapKeyEqualAlg (ieq : List Nat → List Nat → Nat → Bool) :
    hashmapAlgorithm → (List Nat → List Nat → Nat → Bool)
  | .binary => memequal
  | .string => hashmapStringEqual
  | .interface => ieq

/-- `hashmapKeyHashAlg`: the hash operator bound by `hashmapMake`.
The interface discipline's `hashmapInterfacePtrHash` needs the runtime's
reflection walk, which is supplied as the parameter `ihash`. -/
def hashmapKeyHashAlg (hash32 : ByteHash) (ihash : List Nat → Nat → Nat → Nat) :
    hashmapAlgorithm → (List Nat → Nat → Nat → Nat)
  | .binary => hash32
  | .string => hashmapStringPtrHash hash32
  | .interface => ihash

/-- `hashmapMake`: pick the initial `bucketBits`, allocate the zero-filled
primary bucket array, seed the table (`seed` stands for the `fastrand()`
draw, `bucketsId` for the fresh allocation's identity) and bind the
discipline's operators. -/
def hashmapMake (hash32 : ByteHash) (ihash : List Nat → Nat → Nat → Nat)
    (ieq : List Nat → List Nat → Nat → Bool)
    (keySize valueSize sizeHint seed bucketsId : Nat) (alg : hashmapAlgorithm) : hashmap :=
  let bucketBits := hashmapMakeBits sizeHint 0
  { buckets := List.replicate (1 <<< bucketBits) [emptyBucket keySize valueSize]
    bucketsId := bucketsId
    seed := seed
    count := 0
    keySize := keySize
    valueSize := valueSize
    bucketBits := bucketBits
    keyEqual := hashmapKeyEqualAlg ieq alg
    keyHash := hashmapKeyHashAlg hash32 ihash alg }

/-- `hashmapLen`: 0 for a nil map, else `count`. -/
def hashmapLen (m : Option hashmap) : Nat :=
  match m with
  | none => 0
  | some m => m.count

/-- `hashmapClear`: nil is a no-op; otherwise zero `count` and walk every
chain of the `1 <<< bucketBits` primary buckets, resetting each bucket's
tophash array and zeroing its key/value region.  (Chains past the loop bound
— none exist in a well-formed table — are untouched.) -/
def hashmapClear (m : Option hashmap) : Option hashmap :=
  match m with
  | none => none
  | some m =>
    let numBuckets := 1 <<< m.bucketBits
    some { m with
      count := 0
      buckets :=
        (m.buckets.take numBuckets).map
          (List.map fun _ => emptyBucket m.keySize m.valueSize)
        ++ m.buckets.drop numBuckets }

/-- The number of buckets of the primary array, `1 << bucketBits`. -/
def numBuckets (m : hashmap) : Nat := 1 <<< m.bucketBits

/-- `hashmapBucketAddrForHash`: the primary bucket index of a hash,
`hash & (numBuckets - 1)`. -/
def hashmapBucketIndex (m : hashmap) (hash : Nat) : Nat :=
  hash &&& (numBuckets m - 1)

/-- The slot scan predicate of `hashmapSet`/`hashmapGet`/`hashmapDelete`:
the slot's tophash equals the query tophash and the discipline's equality
accepts the stored key. -/
def slotMatches (keyEqual : List Nat → List Nat → Nat → Bool) (keySize : Nat)
    (key : List Nat) (th : Nat) (s : hashmapSlot) : Bool :=
  s.tophash == th && keyEqual key s.key keySize

/-- The empty-slot predicate: tophash 0. -/
def slotEmpty (s : hashmapSlot) : Bool :=
  s.tophash == 0

/-- Index of the first slot of a bucket satisfying `p`, scanning slots in
index order (`for i := 0; i < 8; i++`). -/
def bucketFindSlot (p : hashmapSlot → Bool) : hashmapBucket → Option Nat
  | [] => none
  | s :: ss => if p s then some 0 else (bucketFindSlot p ss).map (· + 1)

/-- Position `(bucket-in-chain, slot)` of the first slot of a chain
satisfying `p`, walking the chain from the primary bucket. -/
def chainFindSlot (p : hashmapSlot → Bool) : hashmapChain → Option (Nat × Nat)
  | [] => none
  | b :: bs =>
    match bucketFindSlot p b with
    | some j => some (0, j)
    | none => (chainFindSlot p bs).map (fun q => (q.1 + 1, q.2))

/-- Read the slot at a chain position. -/
def chainGetSlot (c : hashmapChain) (pos : Nat × Nat) : hashmapSlot :=
  (c.getD pos.1 []).getD pos.2 (emptySlot 0 0)

/-- Rewrite the slot at a chain position. -/
def chainModifySlot (c : hashmapChain) (pos : Nat × Nat) (f : hashmapSlot → hashmapSlot) :
    hashmapChain :=
  c.set pos.1 ((c.getD pos.1 []).set pos.2 (f (chainGetSlot c pos)))

/-- The lookup walk of `hashmapGet` (steps 2–4 of §4.3): the value cell of the
first slot of the home chain whose tophash and key match. -/
def hashmapLookup (m : hashmap) (key : List Nat) (hash : Nat) : Option (List Nat) :=
  let th := hashmapTopHash hash
  let chain := m.buckets.getD (hashmapBucketIndex m hash) []
  (chainFindSlot (slotMatches m.keyEqual m.keySize key th) chain).map
    (fun p => (chainGetSlot chain p).val)

/-- `hashmapGet`: nil map zeroes `valueSize` (the caller's argument) bytes of
the output buffer and reports false; otherwise the lookup walk either copies
the found value cell (`m.valueSize` bytes) into the buffer, or zeroes
`m.valueSize` bytes of it.  Returns the new buffer contents and the found
flag. -/
def hashmapGet (m : Option hashmap) (key buf : List Nat) (valueSize hash : Nat) :
    List Nat × Bool :=
  match m with
  | none => (memzero buf valueSize, false)
  | some m =>
    match hashmapLookup m key hash with
    | some v => (memcpy buf v m.valueSize, true)
    | none => (memzero buf m.valueSize, false)

/-- `hashmapInsertIntoNewBucket`: a fresh zero bucket whose slot 0 receives
the key, value and tophash. -/
def hashmapNewBucket (m : hashmap) (key value : List Nat) (th : Nat) : hashmapBucket :=
  { tophash := th
    key := memcpy (List.replicate m.keySize 0) key m.keySize
    val := memcpy (List.replicate m.valueSize 0) value m.valueSize }
  :: List.replicate 7 (emptySlot m.keySize m.valueSize)

/-- The body of `hashmapSet` after the growth check: scan the home chain; on a
tophash/key match overwrite the value in place; otherwise write into the
first empty slot seen, or link a fresh bucket at the end of the chain; the
latter two increment `count`. -/
def hashmapSetNoGrow (m : hashmap) (key value : List Nat) (hash : Nat) : hashmap :=
  let th := hashmapTopHash hash
  let idx := hashmapBucketIndex m hash
  let chain := m.buckets.getD idx []
  match chainFindSlot (slotMatches m.keyEqual m.keySize key th) chain with
  | some p =>
    let chain' := chainModifySlot chain p
      fun s => { s with val := memcpy s.val value m.valueSize }
    { m with buckets := m.buckets.set idx chain' }
  | none =>
    match chainFindSlot slotEmpty chain with
    | some p =>
      let chain' := chainModifySlot chain p
        fun s =>
          { tophash := th
            key := memcpy s.key key m.keySize
            val := memcpy s.val value m.valueSize }
      { m with count := m.count + 1, buckets := m.buckets.set idx chain' }
    | none =>
      let chain' := chain ++ [hashmapNewBucket m key value th]
      { m with count := m.count + 1, buckets := m.buckets.set idx chain' }

/-- `hashmapDelete`: nil is a no-op; otherwise the lookup walk; on a match the
slot's tophash is zeroed, its key and value cells are zeroed, and `count` is
decremented (the decrement cannot underflow in a well-formed table, where a
match implies `count ≥ 1`). -/
def hashmapDelete (m : Option hashmap) (key : List Nat) (hash : Nat) : Option hashmap :=
  match m with
  | none => none
  | some m =>
    let th := hashmapTopHash hash
    let idx := hashmapBucketIndex m hash
    let chain := m.buckets.getD idx []
    match chainFindSlot (slotMatches m.keyEqual m.keySize key th) chain with
    | some p =>
      let chain' := chainModifySlot chain p
        fun s =>
          { tophash := 0
            key := memzero s.key m.keySize
            val := memzero s.val m.valueSize }
      some { m with count := m.count - 1, buckets := m.buckets.set idx chain' }
    | none => some m

/-- The live entries of one bucket in slot order, as materialised by the
iterator of `hashmapGrow`: slots with tophash 0 are skipped, the others are
copied (`memcpy` of `keySize` resp. `valueSize` bytes into zero-allocated
scratch cells). -/
def bucketEntries (keySize valueSize : Nat) : hashmapBucket → List (List Nat × List Nat)
  | [] => []
  | s :: ss =>
    if s.tophash == 0 then bucketEntries keySize valueSize ss
    else
      (memcpy (List.replicate keySize 0) s.key keySize,
       memcpy (List.replicate valueSize 0) s.val valueSize)
      :: bucketEntries keySize valueSize ss

/-- The live entries of a chain, primary bucket first. -/
def chainEntries (keySize valueSize : Nat) (c : hashmapChain) : List (List Nat × List Nat) :=
  (c.map (bucketEntries keySize valueSize)).flatten

/-- All live entries of the table in iteration order: primary bucket indices
`0 .. numBuckets-1`, within each index the chain from the primary bucket,
within each bucket the slots in index order.  This is the sequence the
throwaway iterator of `hashmapGrow` yields (the map is not modified during
the walk, so the iterator's snapshot check always takes the direct-copy
branch). -/
def hashmapEntries (m : hashmap) : List (List Nat × List Nat) :=
  ((m.buckets.take (numBuckets m)).map (chainEntries m.keySize m.valueSize)).flatten

/-- The number of occupied (non-zero tophash) slots of a bucket. -/
def bucketOccupied (b : hashmapBucket) : Nat :=
  (b.filter fun s => !(s.tophash == 0)).length

/-- The number of occupied slots over all primary buckets and all overflow
buckets. -/
def hashmapOccupied (m : hashmap) : Nat :=
  (m.buckets.map fun c => ((c.map bucketOccupied).sum)).sum

mutual

/-- `hashmapSet`, fuel-indexed.  The growth check of the source is first:
when `count` is over the load factor and there is space to grow, grow and
rehash the key with the new seed, then run the scan-and-insert body
(`hashmapSetNoGrow`).  `fuel` bounds the nesting depth of grows; a grow at
`bucketBits = b` requires `b ≤ ptrBits - 3` and produces `b + 1`, so the
depth never exceeds `ptrBits` and the fuel of the public wrappers
(`ptrBits`) is never exhausted. -/
def hashmapSetAux (freshSeed : hashmap → Nat) (fuel : Nat) (m : hashmap)
    (key value : List Nat) (hash : Nat) : hashmap :=
  if hashmapHasSpaceToGrow m.bucketBits && hashmapOverLoadFactor m.count m.bucketBits then
    match fuel with
    | 0 => hashmapSetNoGrow m key value hash
    | fuel' + 1 =>
      let m' := hashmapGrowAux freshSeed fuel' m
      hashmapSetNoGrow m' key value (m'.keyHash key m'.keySize m'.seed)
  else
    hashmapSetNoGrow m key value hash
termination_by (fuel, 0, 0)

/-- `hashmapGrow`, fuel-indexed: clone the map as empty with a fresh seed
(`freshSeed m` stands for the `fastrand()` draw), twice as many buckets
(zero-allocated, fresh identity), then re-insert every live entry of the old
map, hashing with the shadow's own operator and seed. -/
def hashmapGrowAux (freshSeed : hashmap → Nat) (fuel : Nat) (m : hashmap) : hashmap :=
  let n : hashmap :=
    { m with
      count := 0
      seed := freshSeed m
      bucketBits := m.bucketBits + 1
      bucketsId := m.bucketsId + 1
      buckets := List.replicate (1 <<< (m.bucketBits + 1)) [emptyBucket m.keySize m.valueSize] }
  hashmapGrowInsertAll freshSeed fuel (hashmapEntries m) n
termination_by (fuel, 1, (hashmapEntries m).length + 1)

/-- The re-insertion loop of `hashmapGrow`
(`for hashmapNext(m, &it, key, value) { hashmapSet(&n, key, value, h) }`). -/
def hashmapGrowInsertAll (freshSeed : hashmap → Nat) (fuel : Nat)
    (entries : List (List Nat × List Nat)) (n : hashmap) : hashmap :=
  match entries with
  | [] => n
  | e :: rest =>
    hashmapGrowInsertAll freshSeed fuel rest
      (hashmapSetAux freshSeed fuel n e.1 e.2 (n.keyHash e.1 n.keySize n.seed))
termination_by (fuel, 1, entries.length)

end

/-- `hashmapSet` (public form): set with enough fuel for any nesting of
grows. -/
def hashmapSet (freshSeed : hashmap → Nat) (m : hashmap)
    (key value : List Nat) (hash : Nat) : hashmap :=
  hashmapSetAux freshSeed ptrBits m key value hash

/-- `hashmapGrow` (public form). -/
def hashmapGrow (freshSeed : hashmap → Nat) (m : hashmap) : hashmap :=
  hashmapGrowAux freshSeed ptrBits m

/-- The runtime failure surfaced by writes to a nil map. -/
inductive RuntimeFailure where
  | nilMapPanic
deriving Repr, DecidableEq

/-- `hashmapBinarySet`: nil map panics; otherwise hash the key bytes with
`hash32` under the table's seed and set. -/
def hashmapBinarySet (hash32 : ByteHash) (freshSeed : hashmap → Nat)
    (m : Option hashmap) (key value : List Nat) : Except RuntimeFailure hashmap :=
  match m with
  | none => .error .nilMapPanic
  | some m => .ok (hashmapSet freshSeed m key value (hash32 key m.keySize m.seed))

/-- `hashmapBinaryGet`: nil map zeroes the buffer and reports false;
otherwise hash and get. -/
def hashmapBinaryGet (hash32 : ByteHash) (m : Option hashmap)
    (key buf : List Nat) (valueSize : Nat) : List Nat × Bool :=
  match m with
  | none => (memzero buf valueSize, false)
  | some m => hashmapGet (some m) key buf valueSize (hash32 key m.keySize m.seed)

/-- `hashmapBinaryDelete`: nil map is a no-op; otherwise hash and delete. -/
def hashmapBinaryDelete (hash32 : ByteHash) (m : Option hashmap)
    (key : List Nat) : Option hashmap :=
  match m with
  | none => none
  | some m => hashmapDelete (some m) key (hash32 key m.keySize m.seed)

/-- `hashmapStringSet`: nil map panics; otherwise hash the string contents
and set. -/
def hashmapStringSet (hash32 : ByteHash) (freshSeed : hashmap → Nat)
    (m : Option hashmap) (key value : List Nat) : Except RuntimeFailure hashmap :=
  match m with
  | none => .error .nilMapPanic
  | some m => .ok (hashmapSet freshSeed m key value (hashmapStringHash hash32 key m.seed))

/-- `hashmapStringGet`. -/
def hashmapStringGet (hash32 : ByteHash) (m : Option hashmap)
    (key buf : List Nat) (valueSize : Nat) : List Nat × Bool :=
  match m with
  | none => (memzero buf valueSize, false)
  | some m => hashmapGet (some m) key buf valueSize (hashmapStringHash hash32 key m.seed)

/-- `hashmapStringDelete`. -/
def hashmapStringDelete (hash32 : ByteHash) (m : Option hashmap)
    (key : List Nat) : Option hashmap :=
  match m with
  | none => none
  | some m => hashmapDelete (some m) key (hashmapStringHash hash32 key m.seed)

/-- `hashmapInterfaceSet`: nil map panics; otherwise hash via the structural
interface hash (supplied as `ihash`, standing for `hashmapInterfaceHash`,
whose float specialisation is modelled below) and set. -/
def hashmapInterfaceSet (ihash : List Nat → Nat → Nat) (freshSeed : hashmap → Nat)
    (m : Option hashmap) (key value : List Nat) : Except RuntimeFailure hashmap :=
  match m with
  | none => .error .nilMapPanic
  | some m => .ok (hashmapSet freshSeed m key value (ihash key m.seed))

/-- `hashmapInterfaceGet`. -/
def hashmapInterfaceGet (ihash : List Nat → Nat → Nat) (m : Option hashmap)
    (key buf : List Nat) (valueSize : Nat) : List Nat × Bool :=
  match m with
  | none => (memzero buf valueSize, false)
  | some m => hashmapGet (some m) key buf valueSize (ihash key m.seed)

/-- `hashmapInterfaceDelete`. -/
def hashmapInterfaceDelete (ihash : List Nat → Nat → Nat) (m : Option hashmap)
    (key : List Nat) : Option hashmap :=
  match m with
  | none => none
  | some m => hashmapDelete (some m) key (ihash key m.seed)

/-- Little-endian byte serialisation of a machine word of `width` bytes, as
read or written through a pointer cast. -/
def natToBytesLE (width n : Nat) : List Nat :=
  (List.range width).map fun i => n / 256 ^ i % 256

/-- Assemble a machine word from little-endian bytes (the `*(*uint64)(ptr)`
read). -/
def bytesToNatLE : List Nat → Nat
  | [] => 0
  | b :: rest => b + 256 * bytesToNatLE rest

/-- `hashmapFloat32Hash`: read the 32-bit pattern; if it is negative zero
(`0x80000000`), substitute positive zero; hash the 4 bytes. -/
def hashmapFloat32Hash (hash32 : ByteHash) (bits seed : Nat) : Nat :=
  let f := if bits == 0x80000000 then 0 else bits
  hash32 (natToBytesLE 4 f) 4 seed

/-- `hashmapFloat64Hash`: read the 64-bit pattern; if it is negative zero
(`0x8000000000000000`), substitute positive zero; hash the 8 bytes. -/
def hashmapFloat64Hash (hash32 : ByteHash) (bits seed : Nat) : Nat :=
  let f := if bits == 0x8000000000000000 then 0 else bits
  hash32 (natToBytesLE 8 f) 8 seed

/-- The iterator (`hashmapIterator` in the source).  `buckets` is the snapshot
pointer: `none` is the nil (zero-initialised) state; `some (sid, snap)` is a
pointer whose allocation identity is `sid` and whose pointee contents, when
that allocation is no longer the map's live array, are `snap` (a dereference
resolves to the map's live array while `sid` equals `m.bucketsId`).
`bucket` is the pointer to the current chain node, as a pair
(primary bucket index, position in its chain); `none` is nil. -/
structure hashmapIterator where
  buckets : Option (Nat × List hashmapChain)
  numBuckets : Nat
  bucketNumber : Nat
  bucket : Option (Nat × Nat)
  bucketIndex : Nat
deriving Repr

/-- `hashmapNewIterator`: a zero-initialised iterator. -/
def hashmapNewIterator : hashmapIterator :=
  { buckets := none, numBuckets := 0, bucketNumber := 0, bucket := none, bucketIndex := 0 }

/-- Follow the `next` pointer of the chain node `pos` within the array
`arr`. -/
def iterChainNext (arr : List hashmapChain) (pos : Nat × Nat) : Option (Nat × Nat) :=
  if pos.2 + 1 < (arr.getD pos.1 []).length then some (pos.1, pos.2 + 1) else none

/-- The slot at slot index `j` of the chain node `pos` of the array `arr`. -/
def iterSlotAt (arr : List hashmapChain) (pos : Nat × Nat) (j : Nat) : hashmapSlot :=
  ((arr.getD pos.1 []).getD pos.2 []).getD j (emptySlot 0 0)

/-- Number of chain nodes from `pos` (inclusive) to the end of its chain;
used only as a termination measure for the iterator loop. -/
def chainNodeRemaining (arr : List hashmapChain) : Option (Nat × Nat) → Nat
  | none => 0
  | some pos => (arr.getD pos.1 []).length + 1 - min pos.2 (arr.getD pos.1 []).length

/-- The outcome of one `hashmapNext` call: the mutated iterator fields, the
two output buffers, and the returned flag. -/
structure NextState where
  bucketNumber : Nat
  bucket : Option (Nat × Nat)
  bucketIndex : Nat
  keyBuf : List Nat
  valBuf : List Nat
  found : Bool
deriving Repr, DecidableEq

/-- The `for {}` loop of `hashmapNext`.  `idEq` is the (loop-constant)
outcome of the `it.buckets == m.buckets` pointer comparison, `arr` the
(loop-constant) array the snapshot pointer dereferences to, `numB` the
snapshot bucket count.  Each recursive call re-enters the loop head; the
sequential `if`s of the source are reproduced by re-checking conditions that
are false on re-entry.  When the slot index overflows with a nil current
bucket the source would dereference nil (unreachable from a zero-initialised
iterator); the model treats `nil.next` as nil. -/
def hashmapNextLoop (m : hashmap) (idEq : Bool) (arr : List hashmapChain) (numB : Nat)
    (bn : Nat) (bk : Option (Nat × Nat)) (bi : Nat) (keyBuf valBuf : List Nat) : NextState :=
  if 8 ≤ bi then
    match bk with
    | some pos =>
      -- end of bucket: move to the next node in the chain
      hashmapNextLoop m idEq arr numB bn (iterChainNext arr pos) 0 keyBuf valBuf
    | none =>
      -- (nil current bucket: see the doc comment)
      if numB ≤ bn then { bucketNumber := bn, bucket := none, bucketIndex := 0,
                          keyBuf := keyBuf, valBuf := valBuf, found := false }
      else hashmapNextLoop m idEq arr numB (bn + 1) (some (bn, 0)) 0 keyBuf valBuf
  else
    match bk with
    | none =>
      if numB ≤ bn then { bucketNumber := bn, bucket := none, bucketIndex := bi,
                          keyBuf := keyBuf, valBuf := valBuf, found := false }
      else hashmapNextLoop m idEq arr numB (bn + 1) (some (bn, 0)) bi keyBuf valBuf
    | some pos =>
      let s := iterSlotAt arr pos bi
      if s.tophash == 0 then
        -- slot is empty - move on
        hashmapNextLoop m idEq arr numB bn (some pos) (bi + 1) keyBuf valBuf
      else
        let keyBuf' := memcpy keyBuf s.key m.keySize
        if idEq then
          -- our view of the buckets is the same as the parent map
          { bucketNumber := bn, bucket := some pos, bucketIndex := bi + 1,
            keyBuf := keyBuf', valBuf := memcpy valBuf s.val m.valueSize, found := true }
        else
          -- growth since iteration began: look the key up in the current map
          let hash := m.keyHash keyBuf' m.keySize m.seed
          let r := hashmapGet (some m) keyBuf' valBuf m.valueSize hash
          if r.2 then
            { bucketNumber := bn, bucket := some pos, bucketIndex := bi + 1,
              keyBuf := keyBuf', valBuf := r.1, found := true }
          else
            -- key no longer present: skip this entry
            hashmapNextLoop m idEq arr numB bn (some pos) (bi + 1) keyBuf' r.1
termination_by (numB - bn, chainNodeRemaining arr bk, 8 - bi)
decreasing_by
  · apply Prod.Lex.right
    apply Prod.Lex.left
    simp only [iterChainNext]
    split
    · simp only [chainNodeRemaining]
      omega
    · simp only [chainNodeRemaining]
      omega
  · apply Prod.Lex.left
    omega
  · apply Prod.Lex.left
    omega
  · apply Prod.Lex.right
    apply Prod.Lex.right
    omega
  · apply Prod.Lex.right
    apply Prod.Lex.right
    omega

/-- `hashmapNext`: nil map reports false; a zero iterator is first
initialised with the map's current bucket array and count; then the loop
runs.  Returns the updated iterator, the two buffers and the flag. -/
def hashmapNext (m : Option hashmap) (it : hashmapIterator) (keyBuf valBuf : List Nat) :
    hashmapIterator × List Nat × List Nat × Bool :=
  match m with
  | none => (it, keyBuf, valBuf, false)
  | some m =>
    let snapshot := match it.buckets with
      | none => ((m.bucketsId, m.buckets), 1 <<< m.bucketBits)
      | some s => (s, it.numBuckets)
    let idEq := snapshot.1.1 == m.bucketsId
    let arr := if idEq then m.buckets else snapshot.1.2
    let r := hashmapNextLoop m idEq arr snapshot.2
      it.bucketNumber it.bucket it.bucketIndex keyBuf valBuf
    ({ buckets := some snapshot.1, numBuckets := snapshot.2,
       bucketNumber := r.bucketNumber, bucket := r.bucket, bucketIndex := r.bucketIndex },
     r.keyBuf, r.valBuf, r.found)

/-! ## Well-formedness -/

/-- The keys of all live entries, in iteration order. -/
def hashmapKeys (m : hashmap) : List (List Nat) :=
  (hashmapEntries m).map Prod.fst

/-- The occupancy of one chain. -/
def chainOccupied (c : hashmapChain) : Nat :=
  (c.map bucketOccupied).sum

/-- Shape facts of a table: the primary array length matches `bucketBits`,
every bucket has 8 slots, and every cell has its declared size. -/
structure hashmap.WFShape (m : hashmap) : Prop where
  bucketsLength : m.buckets.length = numBuckets m
  slotsLength : ∀ c ∈ m.buckets, ∀ b ∈ c, b.length = 8
  keyLength : ∀ c ∈ m.buckets, ∀ b ∈ c, ∀ s ∈ b, s.key.length = m.keySize
  valLength : ∀ c ∈ m.buckets, ∀ b ∈ c, ∀ s ∈ b, s.val.length = m.valueSize

/-- Full well-formedness (the invariants of spec §3) for a binary-discipline
table: shape, byte equality as the key discipline, the count invariant, the
stored-tophash derivation, home-chain placement, and key distinctness. -/
structure hashmap.WF (m : hashmap) extends hashmap.WFShape m : Prop where
  keyEq : m.keyEqual = memequal
  countInv : m.count = hashmapOccupied m
  tophashInv : ∀ c ∈ m.buckets, ∀ b ∈ c, ∀ s ∈ b, s.tophash ≠ 0 →
    s.tophash = hashmapTopHash (m.keyHash s.key m.keySize m.seed)
  placement : ∀ i, (h : i < m.buckets.length) →
    ∀ e ∈ chainEntries m.keySize m.valueSize m.buckets[i],
      m.keyHash e.1 m.keySize m.seed &&& (numBuckets m - 1) = i
  distinct : (hashmapKeys m).Nodup

/-- Load bound that holds in every reachable table: while the table can
still grow, `count` can exceed the load-factor threshold by at most the one
insert that triggers the next grow.  (Past the growth ceiling nothing bounds
`count`.) -/
def hashmap.loadOK (m : hashmap) : Prop :=
  hashmapHasSpaceToGrow m.bucketBits = true → m.count ≤ 6 * 2 ^ m.bucketBits + 1

/-- Lookup with the table's own hash operator and seed, as every
discipline-specific `get` performs it. -/
def hashmapLookupOwn (m : hashmap) (key : List Nat) : Option (List Nat) :=
  hashmapLookup m key (m.keyHash key m.keySize m.seed)

/-- The entry materialised from a slot by the iterator's `memcpy`s. -/
def slotEntry (keySize valueSize : Nat) (s : hashmapSlot) : List Nat × List Nat :=
  (memcpy (List.replicate keySize 0) s.key keySize,
   memcpy (List.replicate valueSize 0) s.val valueSize)

/-- `n` successive grows (each one as performed when a set triggers it). -/
def hashmapGrowIter (fs : hashmap → Nat) : Nat → hashmap → hashmap
  | 0, m => m
  | n + 1, m => hashmapGrowIter fs n (hashmapGrow fs m)

/-- Modelled from the spec: the IEEE-754 double encoded by `bits` is a NaN
(all-ones exponent, non-zero mantissa).  The runtime's dynamic interface
equality for floats lives outside this tree. -/
def float64IsNaN (bits : Nat) : Bool :=
  decide ((bits / 2 ^ 52) % 2 ^ 11 = 2 ^ 11 - 1) && decide (bits % 2 ^ 52 ≠ 0)

/-- The negative-zero bit pattern canonicalised to positive zero (the
substitution performed by `hashmapFloat64Hash` before hashing). -/
def float64CanonBits (bits : Nat) : Nat :=
  if bits == 0x8000000000000000 then 0 else bits

/-- Modelled from the spec: Go `==` on two float64 bit patterns — NaN equals
nothing, negative and positive zero are equal, and everything else compares
by its bits. -/
def float64EqBits (x y : Nat) : Bool :=
  !float64IsNaN x && !float64IsNaN y && (float64CanonBits x == float64CanonBits y)

/-- `hashmapInterfaceEqual` specialised to float64 keys: dynamic equality of
the two boxed floats, read little-endian from the key cells. -/
def hashmapFloat64InterfaceEqual (x y : List Nat) (n : Nat) : Bool :=
  float64EqBits (bytesToNatLE (x.take n)) (bytesToNatLE (y.take n))

/-- `hashmapInterfaceHash` specialised to a float64 key (the `Float64` case
of the kind switch): read the bit pattern from the key cell and apply
`hashmapFloat64Hash`. -/
def hashmapFloat64InterfaceHash (hash32 : ByteHash) (key : List Nat) (seed : Nat) : Nat :=
  hashmapFloat64Hash hash32 (bytesToNatLE (key.take 8)) seed

/-- A concrete byte hash for exercising the development on closed inputs
(32-bit truncating polynomial hash). -/
def testHash : ByteHash :=
  fun bs n s => ((bs.take n).foldl (fun a b => a * 131 + b) s) % 4294967296

/-- A concrete seed oracle standing for `fastrand`. -/
def testFreshSeed : hashmap → Nat := fun _ => 9

/-- One occupied slot holding key `[3]` and value `[7]`; its stored tophash
is `hashmapTopHash (testHash [3] 1 5) = 1`. -/
def testSlot : hashmapSlot :=
  { tophash := 1, key := [3], val := [7] }

/-- A bucket whose first slot is `testSlot`. -/
def testBucket : hashmapBucket :=
  testSlot :: List.replicate 7 (emptySlot 1 1)

/-- A one-entry binary-discipline table over one primary bucket. -/
def testMap : hashmap :=
  { buckets := [[testBucket]]
    bucketsId := 0
    seed := 5
    count := 1
    keySize := 1
    valueSize := 1
    bucketBits := 0
    keyEqual := memequal
    keyHash := testHash }

/-- An iterator over `testMap`, positioned at the occupied slot. -/
def testIter : hashmapIterator :=
  { buckets := some (0, [[testBucket]])
    numBuckets := 1
    bucketNumber := 0
    bucket := some (0, 0)
    bucketIndex := 0 }

/-! ## Byte-primitive lemmas -/

theorem memcpy_full {dst src : List Nat} {n : Nat}
    (hd : dst.length = n) (hs : src.length = n) : memcpy dst src n = src := by
  simp [memcpy, List.take_of_length_le (le_of_eq hs), List.drop_eq_nil_of_le (le_of_eq hd)]

theorem memcpy_length {dst src : List Nat} {n : Nat}
    (hd : dst.length = n) (hs : src.length = n) : (memcpy dst src n).length = n := by
  rw [memcpy_full hd hs, hs]

theorem memzero_full {dst : List Nat} {n : Nat} (hd : dst.length = n) :
    memzero dst n = List.replicate n 0 := by
  simp [memzero, List.drop_eq_nil_of_le (le_of_eq hd)]

theorem memequal_iff {x y : List Nat} {n : Nat}
    (hx : x.length = n) (hy : y.length = n) : memequal x y n = true ↔ x = y := by
  simp [memequal, List.take_of_length_le (le_of_eq hx), List.take_of_length_le (le_of_eq hy)]

theorem memequal_self (x : List Nat) (n : Nat) : memequal x x n = true := by
  simp [memequal]

/-! ## Tophash and bucket index -/

theorem hashmapTopHash_pos (h : Nat) : 1 ≤ hashmapTopHash h := by
  by_cases h' : (h >>> 24) % 256 < 1 <;> simp [hashmapTopHash, h'] <;> omega

theorem hashmapTopHash_ne_zero (h : Nat) : hashmapTopHash h ≠ 0 := by
  have := hashmapTopHash_pos h
  omega

theorem zero_beq_topHash (h : Nat) : (0 == hashmapTopHash h) = false := by
  have := hashmapTopHash_pos h
  simp
  omega

theorem numBuckets_eq (m : hashmap) : numBuckets m = 2 ^ m.bucketBits := by
  simp [numBuckets, Nat.shiftLeft_eq]

theorem numBuckets_pos (m : hashmap) : 0 < numBuckets m := by
  rw [numBuckets_eq]; positivity

theorem hashmapBucketIndex_lt (m : hashmap) (h : Nat) :
    hashmapBucketIndex m h < numBuckets m := by
  have h1 : hashmapBucketIndex m h ≤ numBuckets m - 1 := Nat.and_le_right
  have := numBuckets_pos m
  omega

/-! ## List indexing helpers -/

theorem getD_set_ne {α : Type} {l : List α} {i j : Nat} {a d : α} (h : i ≠ j) :
    (l.set i a).getD j d = l.getD j d := by
  simp [List.getD, List.getElem?_set_ne h]

theorem getD_set_self {α : Type} {l : List α} {i : Nat} {a d : α} (h : i < l.length) :
    (l.set i a).getD i d = a := by
  simp [List.getD, List.getElem?_set_self, h]

theorem getD_mem {α : Type} {l : List α} {i : Nat} {d : α} (h : i < l.length) :
    l.getD i d ∈ l := by
  rw [List.getD_eq_getElem l d h]
  exact List.getElem_mem h

/-! ## Scan lemmas -/

theorem bucketFindSlot_eq_none {p : hashmapSlot → Bool} {b : hashmapBucket} :
    bucketFindSlot p b = none ↔ ∀ s ∈ b, p s = false := by
  induction b with
  | nil => simp [bucketFindSlot]
  | cons s ss ih =>
    by_cases hp : p s <;> simp [bucketFindSlot, hp, ih]

theorem chainFindSlot_eq_none {p : hashmapSlot → Bool} {c : hashmapChain} :
    chainFindSlot p c = none ↔ ∀ b ∈ c, ∀ s ∈ b, p s = false := by
  induction c with
  | nil => simp [chainFindSlot]
  | cons b bs ih =>
    cases hb : bucketFindSlot p b with
    | some j =>
      simp only [chainFindSlot, hb]
      constructor
      · intro h; simp at h
      · intro h
        have := bucketFindSlot_eq_none.mpr (h b (by simp))
        rw [this] at hb; simp at hb
    | none =>
      simp only [chainFindSlot, hb, Option.map_eq_none']
      rw [ih]
      constructor
      · intro h b' hb' s hs
        rcases List.mem_cons.mp hb' with rfl | hb'
        · exact bucketFindSlot_eq_none.mp hb s hs
        · exact h b' hb' s hs
      · intro h b' hb' s hs
        exact h b' (List.mem_cons_of_mem _ hb') s hs

theorem bucketFindSlot_some {p : hashmapSlot → Bool} {b : hashmapBucket} {j : Nat}
    (h : bucketFindSlot p b = some j) :
    j < b.length ∧ p (b.getD j (emptySlot 0 0)) = true := by
  induction b generalizing j with
  | nil => simp [bucketFindSlot] at h
  | cons s ss ih =>
    by_cases hp : p s
    · simp [bucketFindSlot, hp] at h
      subst h
      simpa using hp
    · simp [bucketFindSlot, hp] at h
      obtain ⟨j', hj', rfl⟩ := h
      have := ih hj'
      simp only [List.length_cons, List.getD_cons_succ]
      exact ⟨by omega, this.2⟩

theorem chainFindSlot_some {p : hashmapSlot → Bool} {c : hashmapChain} {q : Nat × Nat}
    (h : chainFindSlot p c = some q) :
    q.1 < c.length ∧ q.2 < (c.getD q.1 []).length ∧ p (chainGetSlot c q) = true := by
  induction c generalizing q with
  | nil => simp [chainFindSlot] at h
  | cons b bs ih =>
    cases hb : bucketFindSlot p b with
    | some j =>
      simp only [chainFindSlot, hb] at h
      cases h
      have := bucketFindSlot_some hb
      simp only [List.length_cons, List.getD_cons_zero, chainGetSlot]
      exact ⟨by omega, this.1, this.2⟩
    | none =>
      simp only [chainFindSlot, hb, Option.map_eq_some'] at h
      obtain ⟨q', hq', rfl⟩ := h
      have := ih hq'
      simp only [List.length_cons, List.getD_cons_succ, chainGetSlot]
      exact ⟨by omega, this.2.1, this.2.2⟩

theorem chainGetSlot_mem {c : hashmapChain} {q : Nat × Nat}
    (h1 : q.1 < c.length) (h2 : q.2 < (c.getD q.1 []).length) :
    ∃ b ∈ c, chainGetSlot c q ∈ b :=
  ⟨c.getD q.1 [], getD_mem h1, getD_mem h2⟩

theorem bucketFindSlot_set_congr {p : hashmapSlot → Bool} {b : hashmapBucket} {j : Nat}
    {s' : hashmapSlot} (hpf : p s' = p (b.getD j (emptySlot 0 0))) :
    bucketFindSlot p (b.set j s') = bucketFindSlot p b := by
  induction b generalizing j with
  | nil => simp
  | cons s ss ih =>
    cases j with
    | zero =>
      simp only [List.getD_cons_zero] at hpf
      simp only [List.set_cons_zero, bucketFindSlot, hpf]
    | succ j' =>
      simp only [List.getD_cons_succ] at hpf
      simp only [List.set_cons_succ, bucketFindSlot, ih hpf]

theorem chainGetSlot_cons_zero (b : hashmapBucket) (bs : hashmapChain) (j : Nat) :
    chainGetSlot (b :: bs) (0, j) = b.getD j (emptySlot 0 0) := rfl

theorem chainGetSlot_cons_succ (b : hashmapBucket) (bs : hashmapChain) (i j : Nat) :
    chainGetSlot (b :: bs) (i + 1, j) = chainGetSlot bs (i, j) := rfl

theorem chainModifySlot_cons_zero (b : hashmapBucket) (bs : hashmapChain) (j : Nat)
    (f : hashmapSlot → hashmapSlot) :
    chainModifySlot (b :: bs) (0, j) f = b.set j (f (b.getD j (emptySlot 0 0))) :: bs := rfl

theorem chainModifySlot_cons_succ (b : hashmapBucket) (bs : hashmapChain) (i j : Nat)
    (f : hashmapSlot → hashmapSlot) :
    chainModifySlot (b :: bs) (i + 1, j) f = b :: chainModifySlot bs (i, j) f := rfl

theorem chainFindSlot_modify_congr {p : hashmapSlot → Bool} {c : hashmapChain} {q : Nat × Nat}
    {f : hashmapSlot → hashmapSlot}
    (hpf : p (f (chainGetSlot c q)) = p (chainGetSlot c q)) :
    chainFindSlot p (chainModifySlot c q f) = chainFindSlot p c := by
  obtain ⟨i, j⟩ := q
  induction c generalizing i with
  | nil => simp [chainModifySlot]
  | cons b bs ih =>
    cases i with
    | zero =>
      rw [chainGetSlot_cons_zero] at hpf
      rw [chainModifySlot_cons_zero]
      simp only [chainFindSlot]
      rw [bucketFindSlot_set_congr hpf]
    | succ i' =>
      rw [chainGetSlot_cons_succ] at hpf
      rw [chainModifySlot_cons_succ]
      simp only [chainFindSlot]
      rw [ih i' hpf]

theorem chainGetSlot_modify_self {c : hashmapChain} {q : Nat × Nat}
    {f : hashmapSlot → hashmapSlot}
    (h1 : q.1 < c.length) (h2 : q.2 < (c.getD q.1 []).length) :
    chainGetSlot (chainModifySlot c q f) q = f (chainGetSlot c q) := by
  obtain ⟨i, j⟩ := q
  simp only at h1 h2
  induction c generalizing i with
  | nil => simp at h1
  | cons b bs ih =>
    cases i with
    | zero =>
      rw [chainModifySlot_cons_zero, chainGetSlot_cons_zero, chainGetSlot_cons_zero]
      simp only [List.getD_cons_zero] at h2
      exact getD_set_self (by simpa using h2)
    | succ i' =>
      rw [chainModifySlot_cons_succ, chainGetSlot_cons_succ, chainGetSlot_cons_succ]
      simp only [List.length_cons] at h1
      simp only [List.getD_cons_succ] at h2
      exact ih i' (by omega) h2

theorem chainGetSlot_modify_ne {c : hashmapChain} {q q' : Nat × Nat}
    {f : hashmapSlot → hashmapSlot} (h : q' ≠ q) :
    chainGetSlot (chainModifySlot c q f) q' = chainGetSlot c q' := by
  obtain ⟨i, j⟩ := q
  obtain ⟨i', j'⟩ := q'
  by_cases hi : i' = i
  · subst hi
    have hj : j' ≠ j := by simpa [Prod.ext_iff] using h
    simp only [chainModifySlot, chainGetSlot]
    by_cases hlt : i' < c.length
    · rw [getD_set_self hlt, getD_set_ne (Ne.symm hj)]
    · rw [List.set_eq_of_length_le (by omega)]
  · simp only [chainModifySlot, chainGetSlot]
    rw [getD_set_ne (fun hh => hi hh.symm)]

theorem bucketFindSlot_set_of_none {p : hashmapSlot → Bool} {b : hashmapBucket} {j : Nat}
    {s' : hashmapSlot} (hnone : bucketFindSlot p b = none)
    (hj : j < b.length) (hs' : p s' = true) :
    bucketFindSlot p (b.set j s') = some j := by
  induction b generalizing j with
  | nil => simp at hj
  | cons s ss ih =>
    have hps : p s = false := bucketFindSlot_eq_none.mp hnone s (by simp)
    have hrest : bucketFindSlot p ss = none := by
      rw [bucketFindSlot_eq_none]
      intro t ht
      exact bucketFindSlot_eq_none.mp hnone t (by simp [ht])
    cases j with
    | zero => simp [bucketFindSlot, hs']
    | succ j' =>
      simp only [List.set_cons_succ, bucketFindSlot, hps, Bool.false_eq_true, if_neg,
        Bool.not_eq_true]
      rw [ih hrest (by simpa using hj)]
      rfl

theorem chainFindSlot_modify_of_none {p : hashmapSlot → Bool} {c : hashmapChain} {q : Nat × Nat}
    {f : hashmapSlot → hashmapSlot} (hnone : chainFindSlot p c = none)
    (h1 : q.1 < c.length) (h2 : q.2 < (c.getD q.1 []).length)
    (hs' : p (f (chainGetSlot c q)) = true) :
    chainFindSlot p (chainModifySlot c q f) = some q := by
  obtain ⟨i, j⟩ := q
  simp only at h1 h2
  induction c generalizing i with
  | nil => simp at h1
  | cons b bs ih =>
    have hb : bucketFindSlot p b = none := by
      rw [bucketFindSlot_eq_none]
      intro s hs
      exact chainFindSlot_eq_none.mp hnone b (by simp) s hs
    have hbs : chainFindSlot p bs = none := by
      rw [chainFindSlot_eq_none]
      intro b' hb' s hs
      exact chainFindSlot_eq_none.mp hnone b' (by simp [hb']) s hs
    cases i with
    | zero =>
      rw [chainGetSlot_cons_zero] at hs'
      rw [chainModifySlot_cons_zero]
      simp only [List.getD_cons_zero] at h2
      simp only [chainFindSlot]
      rw [bucketFindSlot_set_of_none hb h2 hs']
    | succ i' =>
      rw [chainGetSlot_cons_succ] at hs'
      rw [chainModifySlot_cons_succ]
      simp only [chainFindSlot, hb]
      simp only [List.length_cons] at h1
      simp only [List.getD_cons_succ] at h2
      rw [ih hbs i' (by omega) h2 hs']
      rfl

theorem chainFindSlot_append_single {p : hashmapSlot → Bool} {c : hashmapChain}
    {b' : hashmapBucket} :
    chainFindSlot p (c ++ [b']) =
      match chainFindSlot p c with
      | some q => some q
      | none => (bucketFindSlot p b').map (fun j => (c.length, j)) := by
  induction c with
  | nil =>
    simp only [List.nil_append, chainFindSlot]
    cases hb : bucketFindSlot p b' <;> simp [hb]
  | cons b bs ih =>
    show (match bucketFindSlot p b with
      | some j => some (0, j)
      | none => (chainFindSlot p (bs ++ [b'])).map (fun q : Nat × Nat => (q.1 + 1, q.2))) = _
    rw [ih]
    cases hb : bucketFindSlot p b with
    | some j => simp [chainFindSlot, hb]
    | none =>
      cases hbs : chainFindSlot p bs with
      | some q => simp [chainFindSlot, hb, hbs]
      | none =>
        simp only [chainFindSlot, hb, hbs]
        cases hb' : bucketFindSlot p b' <;>
          simp [hb', Option.map_map, Function.comp, Nat.add_comm]

theorem chainGetSlot_append_left {c : hashmapChain} {b' : hashmapBucket} {q : Nat × Nat}
    (h : q.1 < c.length) :
    chainGetSlot (c ++ [b']) q = chainGetSlot c q := by
  have hc : (c ++ [b']).getD q.1 [] = c.getD q.1 [] := by
    rw [List.getD_eq_getElem?_getD, List.getD_eq_getElem?_getD, List.getElem?_append_left h]
  simp only [chainGetSlot, hc]

theorem chainGetSlot_append_right {c : hashmapChain} {b' : hashmapBucket} {j : Nat} :
    chainGetSlot (c ++ [b']) (c.length, j) = b'.getD j (emptySlot 0 0) := by
  have hc : (c ++ [b']).getD c.length [] = b' := by
    rw [List.getD_eq_getElem?_getD, List.getElem?_append_right (le_refl _)]
    simp
  simp only [chainGetSlot, hc]

/-! ## Entry-list lemmas -/

theorem bucketEntries_eq (ks vs : Nat) (b : hashmapBucket) :
    bucketEntries ks vs b
      = (b.filter fun s => !(s.tophash == 0)).map (slotEntry ks vs) := by
  induction b with
  | nil => simp [bucketEntries]
  | cons s ss ih =>
    by_cases h : s.tophash = 0 <;> simp [bucketEntries, List.filter_cons, h, ih, slotEntry]

theorem chainEntries_cons (ks vs : Nat) (b : hashmapBucket) (bs : hashmapChain) :
    chainEntries ks vs (b :: bs) = bucketEntries ks vs b ++ chainEntries ks vs bs := by
  simp [chainEntries]

theorem chainEntries_append (ks vs : Nat) (c c' : hashmapChain) :
    chainEntries ks vs (c ++ c') = chainEntries ks vs c ++ chainEntries ks vs c' := by
  simp [chainEntries]

theorem bucketOccupied_eq_length (ks vs : Nat) (b : hashmapBucket) :
    bucketOccupied b = (bucketEntries ks vs b).length := by
  rw [bucketEntries_eq, List.length_map, bucketOccupied]

theorem chainOccupied_eq_length (ks vs : Nat) (c : hashmapChain) :
    chainOccupied c = (chainEntries ks vs c).length := by
  induction c with
  | nil => simp [chainOccupied, chainEntries]
  | cons b bs ih =>
    simp [chainOccupied, chainEntries_cons, ← bucketOccupied_eq_length ks vs] at *
    omega

theorem exists_slot_of_entry_mem {ks vs : Nat} {c : hashmapChain} {e : List Nat × List Nat}
    (hmem : e ∈ chainEntries ks vs c) :
    ∃ b ∈ c, ∃ s ∈ b, s.tophash ≠ 0 ∧ e = slotEntry ks vs s := by
  induction c with
  | nil => simp [chainEntries] at hmem
  | cons b bs ih =>
    rw [chainEntries_cons, List.mem_append] at hmem
    rcases hmem with hb | hbs
    · rw [bucketEntries_eq, List.mem_map] at hb
      obtain ⟨s, hs, rfl⟩ := hb
      rw [List.mem_filter] at hs
      exact ⟨b, by simp, s, hs.1, by simpa using hs.2, rfl⟩
    · obtain ⟨b', hb', s, hs, h0, he⟩ := ih hbs
      exact ⟨b', by simp [hb'], s, hs, h0, he⟩

theorem bucketEntry_mem_of_occupied {ks vs : Nat} {b : hashmapBucket} {j : Nat}
    (hj : j < b.length) (hocc : (b.getD j (emptySlot 0 0)).tophash ≠ 0) :
    slotEntry ks vs (b.getD j (emptySlot 0 0)) ∈ bucketEntries ks vs b := by
  rw [bucketEntries_eq]
  apply List.mem_map_of_mem
  rw [List.mem_filter]
  exact ⟨getD_mem hj, by simpa using hocc⟩

theorem chainEntry_mem_of_occupied (ks vs : Nat) {c : hashmapChain} {q : Nat × Nat}
    (h1 : q.1 < c.length) (h2 : q.2 < (c.getD q.1 []).length)
    (hocc : (chainGetSlot c q).tophash ≠ 0) :
    slotEntry ks vs (chainGetSlot c q) ∈ chainEntries ks vs c := by
  obtain ⟨i, j⟩ := q
  simp only at h1 h2
  induction c generalizing i with
  | nil => simp at h1
  | cons b bs ih =>
    cases i with
    | zero =>
      rw [chainGetSlot_cons_zero] at hocc ⊢
      rw [chainEntries_cons, List.mem_append]
      exact Or.inl (bucketEntry_mem_of_occupied (by simpa using h2) hocc)
    | succ i' =>
      rw [chainGetSlot_cons_succ] at hocc ⊢
      rw [chainEntries_cons, List.mem_append]
      simp only [List.length_cons] at h1
      simp only [List.getD_cons_succ] at h2
      exact Or.inr (ih i' (by omega) h2 hocc)

theorem bucketEntries_set_occ_occ (ks vs : Nat) {b : hashmapBucket} {j : Nat}
    {s' : hashmapSlot} (hj : j < b.length)
    (hold : (b.getD j (emptySlot 0 0)).tophash ≠ 0) (hnew : s'.tophash ≠ 0) :
    ∃ l1 l2, bucketEntries ks vs b = l1 ++ slotEntry ks vs (b.getD j (emptySlot 0 0)) :: l2 ∧
      bucketEntries ks vs (b.set j s') = l1 ++ slotEntry ks vs s' :: l2 := by
  induction b generalizing j with
  | nil => simp at hj
  | cons s ss ih =>
    cases j with
    | zero =>
      refine ⟨[], bucketEntries ks vs ss, ?_⟩
      simp only [List.getD_cons_zero] at hold
      simp [bucketEntries, hold, hnew, slotEntry]
    | succ j' =>
      simp only [List.getD_cons_succ] at hold
      obtain ⟨l1, l2, h1, h2⟩ := ih (by simpa using hj) hold
      by_cases hs : s.tophash = 0
      · exact ⟨l1, l2, by simp [bucketEntries, hs, h1, h2]⟩
      · refine ⟨slotEntry ks vs s :: l1, l2, ?_⟩
        simp [bucketEntries, hs, h1, h2, slotEntry]

theorem bucketEntries_set_empty_occ (ks vs : Nat) {b : hashmapBucket} {j : Nat}
    {s' : hashmapSlot} (hj : j < b.length)
    (hold : (b.getD j (emptySlot 0 0)).tophash = 0) (hnew : s'.tophash ≠ 0) :
    ∃ l1 l2, bucketEntries ks vs b = l1 ++ l2 ∧
      bucketEntries ks vs (b.set j s') = l1 ++ slotEntry ks vs s' :: l2 := by
  induction b generalizing j with
  | nil => simp at hj
  | cons s ss ih =>
    cases j with
    | zero =>
      refine ⟨[], bucketEntries ks vs ss, ?_⟩
      simp only [List.getD_cons_zero] at hold
      simp [bucketEntries, hold, hnew, slotEntry]
    | succ j' =>
      simp only [List.getD_cons_succ] at hold
      obtain ⟨l1, l2, h1, h2⟩ := ih (by simpa using hj) hold
      by_cases hs : s.tophash = 0
      · exact ⟨l1, l2, by simp [bucketEntries, hs, h1, h2]⟩
      · refine ⟨slotEntry ks vs s :: l1, l2, ?_⟩
        simp [bucketEntries, hs, h1, h2, slotEntry]

theorem bucketEntries_set_occ_empty (ks vs : Nat) {b : hashmapBucket} {j : Nat}
    {s' : hashmapSlot} (hj : j < b.length)
    (hold : (b.getD j (emptySlot 0 0)).tophash ≠ 0) (hnew : s'.tophash = 0) :
    ∃ l1 l2, bucketEntries ks vs b = l1 ++ slotEntry ks vs (b.getD j (emptySlot 0 0)) :: l2 ∧
      bucketEntries ks vs (b.set j s') = l1 ++ l2 := by
  induction b generalizing j with
  | nil => simp at hj
  | cons s ss ih =>
    cases j with
    | zero =>
      refine ⟨[], bucketEntries ks vs ss, ?_⟩
      simp only [List.getD_cons_zero] at hold
      simp [bucketEntries, hold, hnew, slotEntry]
    | succ j' =>
      simp only [List.getD_cons_succ] at hold
      obtain ⟨l1, l2, h1, h2⟩ := ih (by simpa using hj) hold
      by_cases hs : s.tophash = 0
      · exact ⟨l1, l2, by simp [bucketEntries, hs, h1, h2]⟩
      · refine ⟨slotEntry ks vs s :: l1, l2, ?_⟩
        simp [bucketEntries, hs, h1, h2, slotEntry]

theorem chainEntries_modify_occ_occ (ks vs : Nat) {c : hashmapChain} {q : Nat × Nat}
    {f : hashmapSlot → hashmapSlot}
    (h1 : q.1 < c.length) (h2 : q.2 < (c.getD q.1 []).length)
    (hold : (chainGetSlot c q).tophash ≠ 0) (hnew : (f (chainGetSlot c q)).tophash ≠ 0) :
    ∃ l1 l2, chainEntries ks vs c = l1 ++ slotEntry ks vs (chainGetSlot c q) :: l2 ∧
      chainEntries ks vs (chainModifySlot c q f) = l1 ++ slotEntry ks vs (f (chainGetSlot c q)) :: l2 := by
  obtain ⟨i, j⟩ := q
  simp only at h1 h2
  induction c generalizing i with
  | nil => simp at h1
  | cons b bs ih =>
    cases i with
    | zero =>
      rw [chainGetSlot_cons_zero] at hold hnew ⊢
      rw [chainModifySlot_cons_zero]
      simp only [List.getD_cons_zero] at h2
      obtain ⟨l1, l2, hb1, hb2⟩ := bucketEntries_set_occ_occ ks vs h2 hold hnew
      refine ⟨l1, l2 ++ chainEntries ks vs bs, ?_, ?_⟩
      · rw [chainEntries_cons, hb1]; simp
      · rw [chainEntries_cons, hb2]; simp
    | succ i' =>
      rw [chainGetSlot_cons_succ] at hold hnew ⊢
      rw [chainModifySlot_cons_succ]
      simp only [List.length_cons] at h1
      simp only [List.getD_cons_succ] at h2
      obtain ⟨l1, l2, hc1, hc2⟩ := ih i' (by omega) h2 hold hnew
      refine ⟨bucketEntries ks vs b ++ l1, l2, ?_, ?_⟩
      · rw [chainEntries_cons, hc1]; simp
      · rw [chainEntries_cons, hc2]; simp

theorem chainEntries_modify_empty_occ (ks vs : Nat) {c : hashmapChain} {q : Nat × Nat}
    {f : hashmapSlot → hashmapSlot}
    (h1 : q.1 < c.length) (h2 : q.2 < (c.getD q.1 []).length)
    (hold : (chainGetSlot c q).tophash = 0) (hnew : (f (chainGetSlot c q)).tophash ≠ 0) :
    ∃ l1 l2, chainEntries ks vs c = l1 ++ l2 ∧
      chainEntries ks vs (chainModifySlot c q f) = l1 ++ slotEntry ks vs (f (chainGetSlot c q)) :: l2 := by
  obtain ⟨i, j⟩ := q
  simp only at h1 h2
  induction c generalizing i with
  | nil => simp at h1
  | cons b bs ih =>
    cases i with
    | zero =>
      rw [chainGetSlot_cons_zero] at hold hnew ⊢
      rw [chainModifySlot_cons_zero]
      simp only [List.getD_cons_zero] at h2
      obtain ⟨l1, l2, hb1, hb2⟩ := bucketEntries_set_empty_occ ks vs h2 hold hnew
      refine ⟨l1, l2 ++ chainEntries ks vs bs, ?_, ?_⟩
      · rw [chainEntries_cons, hb1]; simp
      · rw [chainEntries_cons, hb2]; simp
    | succ i' =>
      rw [chainGetSlot_cons_succ] at hold hnew ⊢
      rw [chainModifySlot_cons_succ]
      simp only [List.length_cons] at h1
      simp only [List.getD_cons_succ] at h2
      obtain ⟨l1, l2, hc1, hc2⟩ := ih i' (by omega) h2 hold hnew
      refine ⟨bucketEntries ks vs b ++ l1, l2, ?_, ?_⟩
      · rw [chainEntries_cons, hc1]; simp
      · rw [chainEntries_cons, hc2]; simp

theorem chainEntries_modify_occ_empty (ks vs : Nat) {c : hashmapChain} {q : Nat × Nat}
    {f : hashmapSlot → hashmapSlot}
    (h1 : q.1 < c.length) (h2 : q.2 < (c.getD q.1 []).length)
    (hold : (chainGetSlot c q).tophash ≠ 0) (hnew : (f (chainGetSlot c q)).tophash = 0) :
    ∃ l1 l2, chainEntries ks vs c = l1 ++ slotEntry ks vs (chainGetSlot c q) :: l2 ∧
      chainEntries ks vs (chainModifySlot c q f) = l1 ++ l2 := by
  obtain ⟨i, j⟩ := q
  simp only at h1 h2
  induction c generalizing i with
  | nil => simp at h1
  | cons b bs ih =>
    cases i with
    | zero =>
      rw [chainGetSlot_cons_zero] at hold hnew ⊢
      rw [chainModifySlot_cons_zero]
      simp only [List.getD_cons_zero] at h2
      obtain ⟨l1, l2, hb1, hb2⟩ := bucketEntries_set_occ_empty ks vs h2 hold hnew
      refine ⟨l1, l2 ++ chainEntries ks vs bs, ?_, ?_⟩
      · rw [chainEntries_cons, hb1]; simp
      · rw [chainEntries_cons, hb2]; simp
    | succ i' =>
      rw [chainGetSlot_cons_succ] at hold hnew ⊢
      rw [chainModifySlot_cons_succ]
      simp only [List.length_cons] at h1
      simp only [List.getD_cons_succ] at h2
      obtain ⟨l1, l2, hc1, hc2⟩ := ih i' (by omega) h2 hold hnew
      refine ⟨bucketEntries ks vs b ++ l1, l2, ?_, ?_⟩
      · rw [chainEntries_cons, hc1]; simp
      · rw [chainEntries_cons, hc2]; simp

theorem keyEntry_mem_of_find_some {ks : Nat} (vs : Nat) {k : List Nat} {th : Nat} {c : hashmapChain}
    {q : Nat × Nat}
    (hkeys : ∀ b ∈ c, ∀ s ∈ b, s.key.length = ks)
    (hk : k.length = ks) (hth : th ≠ 0)
    (hfind : chainFindSlot (slotMatches memequal ks k th) c = some q) :
    ∃ w, (k, w) ∈ chainEntries ks vs c := by
  obtain ⟨h1, h2, hp⟩ := chainFindSlot_some hfind
  obtain ⟨b, hb, hs⟩ := chainGetSlot_mem h1 h2
  simp only [slotMatches, Bool.and_eq_true, beq_iff_eq] at hp
  have hkey : (chainGetSlot c q).key = k :=
    ((memequal_iff hk (hkeys b hb _ hs)).mp hp.2).symm
  have hocc : (chainGetSlot c q).tophash ≠ 0 := by rw [hp.1]; exact hth
  have := chainEntry_mem_of_occupied ks vs h1 h2 hocc
  refine ⟨(slotEntry ks vs (chainGetSlot c q)).2, ?_⟩
  have hfst : (slotEntry ks vs (chainGetSlot c q)).1 = k := by
    simp only [slotEntry]
    rw [hkey, memcpy_full (by simp) hk]
  rw [← hfst]
  simpa using this

theorem find_ne_none_of_key_mem {ks vs : Nat} {k w : List Nat} {c : hashmapChain}
    (hf : List Nat → Nat)
    (hkeys : ∀ b ∈ c, ∀ s ∈ b, s.key.length = ks)
    (htop : ∀ b ∈ c, ∀ s ∈ b, s.tophash ≠ 0 → s.tophash = hashmapTopHash (hf s.key))
    (hmem : (k, w) ∈ chainEntries ks vs c) :
    chainFindSlot (slotMatches memequal ks k (hashmapTopHash (hf k))) c ≠ none := by
  intro hnone
  obtain ⟨b, hb, s, hs, hocc, he⟩ := exists_slot_of_entry_mem hmem
  have hkey : s.key = k := by
    have : k = memcpy (List.replicate ks 0) s.key ks := congrArg Prod.fst he
    rw [memcpy_full (by simp) (hkeys b hb s hs)] at this
    exact this.symm
  have hp := chainFindSlot_eq_none.mp hnone b hb s hs
  rw [slotMatches, htop b hb s hs hocc, hkey, memequal_self] at hp
  simp at hp

/-! ## Branch lemmas for the set body and delete -/

theorem hashmapSetNoGrow_overwrite {m : hashmap} {k v : List Nat} {H : Nat} {q : Nat × Nat}
    (hfind : chainFindSlot (slotMatches m.keyEqual m.keySize k (hashmapTopHash H))
      (m.buckets.getD (hashmapBucketIndex m H) []) = some q) :
    hashmapSetNoGrow m k v H =
      { m with buckets := (m.buckets.set (hashmapBucketIndex m H)
          (chainModifySlot (m.buckets.getD (hashmapBucketIndex m H) []) q
            (fun s => { s with val := memcpy s.val v m.valueSize }))) } := by
  simp only [hashmapSetNoGrow, hfind]

theorem hashmapSetNoGrow_insert {m : hashmap} {k v : List Nat} {H : Nat} {q : Nat × Nat}
    (hfind : chainFindSlot (slotMatches m.keyEqual m.keySize k (hashmapTopHash H))
      (m.buckets.getD (hashmapBucketIndex m H) []) = none)
    (hempty : chainFindSlot slotEmpty (m.buckets.getD (hashmapBucketIndex m H) []) = some q) :
    hashmapSetNoGrow m k v H =
      { m with
        count := m.count + 1
        buckets := (m.buckets.set (hashmapBucketIndex m H)
          (chainModifySlot (m.buckets.getD (hashmapBucketIndex m H) []) q
            (fun s =>
              { tophash := hashmapTopHash H
                key := memcpy s.key k m.keySize
                val := memcpy s.val v m.valueSize }))) } := by
  simp only [hashmapSetNoGrow, hfind, hempty]

theorem hashmapSetNoGrow_newBucket {m : hashmap} {k v : List Nat} {H : Nat}
    (hfind : chainFindSlot (slotMatches m.keyEqual m.keySize k (hashmapTopHash H))
      (m.buckets.getD (hashmapBucketIndex m H) []) = none)
    (hempty : chainFindSlot slotEmpty (m.buckets.getD (hashmapBucketIndex m H) []) = none) :
    hashmapSetNoGrow m k v H =
      { m with
        count := m.count + 1
        buckets := (m.buckets.set (hashmapBucketIndex m H)
          (m.buckets.getD (hashmapBucketIndex m H) []
            ++ [hashmapNewBucket m k v (hashmapTopHash H)])) } := by
  simp only [hashmapSetNoGrow, hfind, hempty]

theorem hashmapDelete_found {m : hashmap} {k : List Nat} {H : Nat} {q : Nat × Nat}
    (hfind : chainFindSlot (slotMatches m.keyEqual m.keySize k (hashmapTopHash H))
      (m.buckets.getD (hashmapBucketIndex m H) []) = some q) :
    hashmapDelete (some m) k H =
      some { m with
        count := m.count - 1
        buckets := (m.buckets.set (hashmapBucketIndex m H)
          (chainModifySlot (m.buckets.getD (hashmapBucketIndex m H) []) q
            (fun s =>
              { tophash := 0
                key := memzero s.key m.keySize
                val := memzero s.val m.valueSize }))) } := by
  simp only [hashmapDelete, hfind]

theorem hashmapDelete_not_found {m : hashmap} {k : List Nat} {H : Nat}
    (hfind : chainFindSlot (slotMatches m.keyEqual m.keySize k (hashmapTopHash H))
      (m.buckets.getD (hashmapBucketIndex m H) []) = none) :
    hashmapDelete (some m) k H = some m := by
  simp only [hashmapDelete, hfind]

/-! ## Table-level entry decomposition -/

theorem hashmapEntries_take_eq {m : hashmap} (hlen : m.buckets.length = numBuckets m) :
    hashmapEntries m = (m.buckets.map (chainEntries m.keySize m.valueSize)).flatten := by
  unfold hashmapEntries
  rw [← hlen, List.take_length]

theorem hashmapOccupied_eq_length {m : hashmap} (hlen : m.buckets.length = numBuckets m) :
    hashmapOccupied m = (hashmapEntries m).length := by
  rw [hashmapEntries_take_eq hlen]
  unfold hashmapOccupied
  rw [List.length_flatten, List.map_map]
  congr 1
  apply List.map_congr_left
  intro c _
  simpa [chainOccupied] using chainOccupied_eq_length m.keySize m.valueSize c

theorem hashmapEntries_decomp {m : hashmap} (hlen : m.buckets.length = numBuckets m)
    {idx : Nat} (hidx : idx < m.buckets.length) :
    hashmapEntries m
      = ((m.buckets.take idx).map (chainEntries m.keySize m.valueSize)).flatten
        ++ chainEntries m.keySize m.valueSize (m.buckets.getD idx [])
        ++ ((m.buckets.drop (idx + 1)).map (chainEntries m.keySize m.valueSize)).flatten := by
  rw [hashmapEntries_take_eq hlen]
  conv_lhs => rw [← List.take_append_drop idx m.buckets,
    List.drop_eq_getElem_cons hidx, ← List.getD_eq_getElem m.buckets [] hidx]
  simp [List.flatten_append]

theorem hashmapEntries_set_decomp {m : hashmap} (hlen : m.buckets.length = numBuckets m)
    {idx : Nat} (hidx : idx < m.buckets.length) {c' : hashmapChain} (m' : hashmap)
    (hb : m'.buckets = m.buckets.set idx c')
    (hks : m'.keySize = m.keySize) (hvs : m'.valueSize = m.valueSize)
    (hbb : m'.bucketBits = m.bucketBits) :
    hashmapEntries m'
      = ((m.buckets.take idx).map (chainEntries m.keySize m.valueSize)).flatten
        ++ chainEntries m.keySize m.valueSize c'
        ++ ((m.buckets.drop (idx + 1)).map (chainEntries m.keySize m.valueSize)).flatten := by
  have hlen' : m'.buckets.length = numBuckets m' := by
    rw [hb, List.length_set, hlen, numBuckets, numBuckets, hbb]
  rw [hashmapEntries_take_eq hlen', hb, hks, hvs,
    List.set_eq_take_append_cons_drop, if_pos hidx]
  simp [List.flatten_append]

/-! ## Lookup after set -/

theorem hashmapLookup_buckets (m : hashmap) (bl : List hashmapChain) (k : List Nat) (H : Nat) :
    hashmapLookup { m with buckets := bl } k H =
      (chainFindSlot (slotMatches m.keyEqual m.keySize k (hashmapTopHash H))
          (bl.getD (hashmapBucketIndex m H) [])).map
        (fun p => (chainGetSlot (bl.getD (hashmapBucketIndex m H) []) p).val) := rfl

theorem hashmapLookup_buckets_count (m : hashmap) (bl : List hashmapChain) (cnt : Nat)
    (k : List Nat) (H : Nat) :
    hashmapLookup { m with count := cnt, buckets := bl } k H =
      (chainFindSlot (slotMatches m.keyEqual m.keySize k (hashmapTopHash H))
          (bl.getD (hashmapBucketIndex m H) [])).map
        (fun p => (chainGetSlot (bl.getD (hashmapBucketIndex m H) []) p).val) := rfl

theorem lookup_setNoGrow_self {m : hashmap} (hsh : m.WFShape) (hke : m.keyEqual = memequal)
    {k v : List Nat} (hk : k.length = m.keySize) (hv : v.length = m.valueSize) (H : Nat) :
    hashmapLookup (hashmapSetNoGrow m k v H) k H = some v := by
  have hidx : hashmapBucketIndex m H < m.buckets.length := by
    rw [hsh.bucketsLength]; exact hashmapBucketIndex_lt m H
  cases hfind : chainFindSlot (slotMatches m.keyEqual m.keySize k (hashmapTopHash H))
      (m.buckets.getD (hashmapBucketIndex m H) []) with
  | some q =>
    obtain ⟨h1, h2, hp⟩ := chainFindSlot_some hfind
    have hvlen : (chainGetSlot (m.buckets.getD (hashmapBucketIndex m H) []) q).val.length
        = m.valueSize := by
      obtain ⟨b, hb, hs⟩ := chainGetSlot_mem h1 h2
      exact hsh.valLength _ (getD_mem hidx) b hb _ hs
    rw [hashmapSetNoGrow_overwrite hfind, hashmapLookup_buckets]
    rw [getD_set_self hidx]
    rw [chainFindSlot_modify_congr rfl, hfind]
    simp only [Option.map_some']
    rw [chainGetSlot_modify_self h1 h2]
    rw [memcpy_full hvlen hv]
  | none =>
    cases hempty : chainFindSlot slotEmpty (m.buckets.getD (hashmapBucketIndex m H) []) with
    | some e =>
      obtain ⟨h1, h2, hp⟩ := chainFindSlot_some hempty
      have hklen : (chainGetSlot (m.buckets.getD (hashmapBucketIndex m H) []) e).key.length
          = m.keySize := by
        obtain ⟨b, hb, hs⟩ := chainGetSlot_mem h1 h2
        exact hsh.keyLength _ (getD_mem hidx) b hb _ hs
      have hvlen : (chainGetSlot (m.buckets.getD (hashmapBucketIndex m H) []) e).val.length
          = m.valueSize := by
        obtain ⟨b, hb, hs⟩ := chainGetSlot_mem h1 h2
        exact hsh.valLength _ (getD_mem hidx) b hb _ hs
      have hmatch : slotMatches m.keyEqual m.keySize k (hashmapTopHash H)
          ({ tophash := hashmapTopHash H
             key := memcpy (chainGetSlot (m.buckets.getD (hashmapBucketIndex m H) []) e).key k
               m.keySize
             val := memcpy (chainGetSlot (m.buckets.getD (hashmapBucketIndex m H) []) e).val v
               m.valueSize } : hashmapSlot) = true := by
        simp only [slotMatches, hke]
        rw [memcpy_full hklen hk]
        simp [memequal_self]
      rw [hashmapSetNoGrow_insert hfind hempty, hashmapLookup_buckets_count]
      rw [getD_set_self hidx]
      rw [chainFindSlot_modify_of_none hfind h1 h2 hmatch]
      simp only [Option.map_some']
      rw [chainGetSlot_modify_self h1 h2]
      rw [memcpy_full hvlen hv]
    | none =>
      have hmatch : slotMatches m.keyEqual m.keySize k (hashmapTopHash H)
          ({ tophash := hashmapTopHash H
             key := memcpy (List.replicate m.keySize 0) k m.keySize
             val := memcpy (List.replicate m.valueSize 0) v m.valueSize } : hashmapSlot)
          = true := by
        simp only [slotMatches, hke]
        rw [memcpy_full (by simp) hk]
        simp [memequal_self]
      rw [hashmapSetNoGrow_newBucket hfind hempty, hashmapLookup_buckets_count]
      rw [getD_set_self hidx]
      rw [chainFindSlot_append_single, hfind]
      simp only [hashmapNewBucket, bucketFindSlot, hmatch, if_pos]
      simp only [Option.map_some']
      rw [chainGetSlot_append_right]
      simp only [List.getD_cons_zero]
      rw [memcpy_full (by simp) hv]

theorem memequal_false {x y : List Nat} {n : Nat}
    (hx : x.length = n) (hy : y.length = n) (h : x ≠ y) : memequal x y n = false := by
  rw [← Bool.not_eq_true, memequal_iff hx hy]
  exact h

theorem bucketFindSlot_replicate_none {p : hashmapSlot → Bool} {s : hashmapSlot} {n : Nat}
    (h : p s = false) : bucketFindSlot p (List.replicate n s) = none := by
  induction n with
  | zero => simp [bucketFindSlot]
  | succ n ih => simp [List.replicate_succ, bucketFindSlot, h, ih]

theorem lookup_setNoGrow_other {m : hashmap} (hsh : m.WFShape) (hke : m.keyEqual = memequal)
    {k v k' : List Nat} (hk : k.length = m.keySize) (hk' : k'.length = m.keySize)
    (hne : k' ≠ k) (H H' : Nat) :
    hashmapLookup (hashmapSetNoGrow m k v H) k' H' = hashmapLookup m k' H' := by
  have hidx : hashmapBucketIndex m H < m.buckets.length := by
    rw [hsh.bucketsLength]; exact hashmapBucketIndex_lt m H
  have hLm : hashmapLookup m k' H' =
      (chainFindSlot (slotMatches m.keyEqual m.keySize k' (hashmapTopHash H'))
          (m.buckets.getD (hashmapBucketIndex m H') [])).map
        (fun p => (chainGetSlot (m.buckets.getD (hashmapBucketIndex m H') []) p).val) := rfl
  by_cases hii : hashmapBucketIndex m H' = hashmapBucketIndex m H
  · -- same home chain
    have hLm2 : hashmapLookup m k' H' =
        (chainFindSlot (slotMatches m.keyEqual m.keySize k' (hashmapTopHash H'))
            (m.buckets.getD (hashmapBucketIndex m H) [])).map
          (fun p => (chainGetSlot (m.buckets.getD (hashmapBucketIndex m H) []) p).val) := by
      rw [hLm, hii]
    cases hfind : chainFindSlot (slotMatches m.keyEqual m.keySize k (hashmapTopHash H))
        (m.buckets.getD (hashmapBucketIndex m H) []) with
    | some q =>
      obtain ⟨h1, h2, hp⟩ := chainFindSlot_some hfind
      have hkq : (chainGetSlot (m.buckets.getD (hashmapBucketIndex m H) []) q).key = k := by
        obtain ⟨b, hb, hs⟩ := chainGetSlot_mem h1 h2
        simp only [slotMatches, hke, Bool.and_eq_true, beq_iff_eq] at hp
        exact ((memequal_iff hk (hsh.keyLength _ (getD_mem hidx) b hb _ hs)).mp hp.2).symm
      have hpq' : slotMatches m.keyEqual m.keySize k' (hashmapTopHash H')
          (chainGetSlot (m.buckets.getD (hashmapBucketIndex m H) []) q) = false := by
        simp only [slotMatches, hke, hkq, memequal_false hk' hk hne, Bool.and_false]
      rw [hashmapSetNoGrow_overwrite hfind, hashmapLookup_buckets, hii, getD_set_self hidx, hLm2]
      rw [chainFindSlot_modify_congr rfl]
      cases hfind' : chainFindSlot (slotMatches m.keyEqual m.keySize k' (hashmapTopHash H'))
          (m.buckets.getD (hashmapBucketIndex m H) []) with
      | none => simp
      | some q' =>
        have hq'q : q' ≠ q := by
          intro hqq
          have := (chainFindSlot_some hfind').2.2
          rw [hqq, hpq'] at this
          simp at this
        simp only [Option.map_some']
        rw [chainGetSlot_modify_ne hq'q]
    | none =>
      cases hempty : chainFindSlot slotEmpty (m.buckets.getD (hashmapBucketIndex m H) []) with
      | some e =>
        obtain ⟨h1, h2, hp⟩ := chainFindSlot_some hempty
        have hklen : (chainGetSlot (m.buckets.getD (hashmapBucketIndex m H) []) e).key.length
            = m.keySize := by
          obtain ⟨b, hb, hs⟩ := chainGetSlot_mem h1 h2
          exact hsh.keyLength _ (getD_mem hidx) b hb _ hs
        have htop0 : (chainGetSlot (m.buckets.getD (hashmapBucketIndex m H) []) e).tophash = 0 := by
          simpa [slotEmpty] using hp
        have hpe : slotMatches m.keyEqual m.keySize k' (hashmapTopHash H')
            (chainGetSlot (m.buckets.getD (hashmapBucketIndex m H) []) e) = false := by
          simp only [slotMatches, htop0, zero_beq_topHash, Bool.false_and]
        have hpf : slotMatches m.keyEqual m.keySize k' (hashmapTopHash H')
            ({ tophash := hashmapTopHash H
               key := memcpy (chainGetSlot (m.buckets.getD (hashmapBucketIndex m H) []) e).key k
                 m.keySize
               val := memcpy (chainGetSlot (m.buckets.getD (hashmapBucketIndex m H) []) e).val v
                 m.valueSize } : hashmapSlot) = false := by
          simp only [slotMatches, hke]
          rw [memcpy_full hklen hk]
          simp [memequal_false hk' hk hne]
        rw [hashmapSetNoGrow_insert hfind hempty, hashmapLookup_buckets_count, hii,
          getD_set_self hidx, hLm2]
        rw [chainFindSlot_modify_congr (hpf.trans hpe.symm)]
        cases hfind' : chainFindSlot (slotMatches m.keyEqual m.keySize k' (hashmapTopHash H'))
            (m.buckets.getD (hashmapBucketIndex m H) []) with
        | none => simp
        | some q' =>
          have hq'e : q' ≠ e := by
            intro hqq
            have := (chainFindSlot_some hfind').2.2
            rw [hqq, hpe] at this
            simp at this
          simp only [Option.map_some']
          rw [chainGetSlot_modify_ne hq'e]
      | none =>
        have hb0 : bucketFindSlot (slotMatches m.keyEqual m.keySize k' (hashmapTopHash H'))
            (hashmapNewBucket m k v (hashmapTopHash H)) = none := by
          simp only [hashmapNewBucket, bucketFindSlot]
          have hp0 : slotMatches m.keyEqual m.keySize k' (hashmapTopHash H')
              ({ tophash := hashmapTopHash H
                 key := memcpy (List.replicate m.keySize 0) k m.keySize
                 val := memcpy (List.replicate m.valueSize 0) v m.valueSize } : hashmapSlot)
              = false := by
            simp only [slotMatches, hke]
            rw [memcpy_full (by simp) hk]
            simp [memequal_false hk' hk hne]
          have hpe : slotMatches m.keyEqual m.keySize k' (hashmapTopHash H')
              (emptySlot m.keySize m.valueSize) = false := by
            simp only [slotMatches, emptySlot, zero_beq_topHash, Bool.false_and]
          rw [hp0]
          simp [hpe]
        rw [hashmapSetNoGrow_newBucket hfind hempty, hashmapLookup_buckets_count, hii,
          getD_set_self hidx, hLm2]
        rw [chainFindSlot_append_single]
        cases hfind' : chainFindSlot (slotMatches m.keyEqual m.keySize k' (hashmapTopHash H'))
            (m.buckets.getD (hashmapBucketIndex m H) []) with
        | none => simp [hb0]
        | some q' =>
          simp only [Option.map_some']
          rw [chainGetSlot_append_left (chainFindSlot_some hfind').1]
  · -- different home chain: the set leaves it untouched
    have hne2 : hashmapBucketIndex m H ≠ hashmapBucketIndex m H' := fun hh => hii hh.symm
    cases hfind : chainFindSlot (slotMatches m.keyEqual m.keySize k (hashmapTopHash H))
        (m.buckets.getD (hashmapBucketIndex m H) []) with
    | some q =>
      rw [hashmapSetNoGrow_overwrite hfind, hashmapLookup_buckets, getD_set_ne hne2, hLm]
    | none =>
      cases hempty : chainFindSlot slotEmpty (m.buckets.getD (hashmapBucketIndex m H) []) with
      | some e =>
        rw [hashmapSetNoGrow_insert hfind hempty, hashmapLookup_buckets_count,
          getD_set_ne hne2, hLm]
      | none =>
        rw [hashmapSetNoGrow_newBucket hfind hempty, hashmapLookup_buckets_count,
          getD_set_ne hne2, hLm]

/-! ## Slot membership in updated tables -/

theorem slot_mem_set_modify {bl : List hashmapChain} {idx : Nat} {q : Nat × Nat}
    {f : hashmapSlot → hashmapSlot} {c : hashmapChain} {b : hashmapBucket} {s : hashmapSlot}
    (hidx : idx < bl.length)
    (hc : c ∈ bl.set idx (chainModifySlot (bl.getD idx []) q f))
    (hb : b ∈ c) (hs : s ∈ b) :
    (∃ c0 ∈ bl, ∃ b0 ∈ c0, s ∈ b0) ∨ s = f (chainGetSlot (bl.getD idx []) q) := by
  rcases List.mem_or_eq_of_mem_set hc with hc' | rfl
  · exact Or.inl ⟨c, hc', b, hb, hs⟩
  · rcases List.mem_or_eq_of_mem_set hb with hb' | rfl
    · exact Or.inl ⟨bl.getD idx [], getD_mem hidx, b, hb', hs⟩
    · rcases List.mem_or_eq_of_mem_set hs with hs' | rfl
      · by_cases hq : q.1 < (bl.getD idx []).length
        · exact Or.inl ⟨bl.getD idx [], getD_mem hidx, _, getD_mem hq, hs'⟩
        · rw [List.getD_eq_default _ _ (by omega)] at hs'
          simp at hs'
      · exact Or.inr rfl

theorem slot_mem_set_append {bl : List hashmapChain} {idx : Nat} {nb : hashmapBucket}
    {c : hashmapChain} {b : hashmapBucket} {s : hashmapSlot}
    (hidx : idx < bl.length)
    (hc : c ∈ bl.set idx (bl.getD idx [] ++ [nb]))
    (hb : b ∈ c) (hs : s ∈ b) :
    (∃ c0 ∈ bl, ∃ b0 ∈ c0, s ∈ b0) ∨ b = nb := by
  rcases List.mem_or_eq_of_mem_set hc with hc' | rfl
  · exact Or.inl ⟨c, hc', b, hb, hs⟩
  · rcases List.mem_append.mp hb with hb' | hb'
    · exact Or.inl ⟨bl.getD idx [], getD_mem hidx, b, hb', hs⟩
    · exact Or.inr (by simpa using hb')

theorem entry_mem_chain_of_mem_entries {m : hashmap}
    (hlen : m.buckets.length = numBuckets m) {e : List Nat × List Nat}
    (he : e ∈ hashmapEntries m) :
    ∃ i, ∃ h : i < m.buckets.length,
      e ∈ chainEntries m.keySize m.valueSize m.buckets[i] := by
  rw [hashmapEntries_take_eq hlen] at he
  rw [List.mem_flatten] at he
  obtain ⟨l, hl, hel⟩ := he
  rw [List.mem_map] at hl
  obtain ⟨c, hc, rfl⟩ := hl
  obtain ⟨i, hi, rfl⟩ := List.mem_iff_getElem.mp hc
  exact ⟨i, hi, hel⟩

/-- If the scan of the home chain finds no match, the key is (by placement and
the tophash invariant) in no chain at all. -/
theorem key_not_mem_entries_of_find_none {m : hashmap} (hwf : m.WF) {k : List Nat}
    (hk : k.length = m.keySize)
    (hfind : chainFindSlot
        (slotMatches m.keyEqual m.keySize k
          (hashmapTopHash (m.keyHash k m.keySize m.seed)))
        (m.buckets.getD (hashmapBucketIndex m (m.keyHash k m.keySize m.seed)) []) = none) :
    ∀ w, (k, w) ∉ hashmapEntries m := by
  intro w hmem
  obtain ⟨i, hi, hci⟩ := entry_mem_chain_of_mem_entries hwf.bucketsLength hmem
  have hplace := hwf.placement i hi (k, w) hci
  have hidx : hashmapBucketIndex m (m.keyHash k m.keySize m.seed) = i := by
    rw [hashmapBucketIndex, hplace]
  rw [hidx] at hfind
  rw [← List.getD_eq_getElem m.buckets [] hi] at hci
  refine find_ne_none_of_key_mem (fun key => m.keyHash key m.keySize m.seed)
    ?_ ?_ hci ?_
  · intro b hb s hs
    exact hwf.keyLength _ (getD_mem hi) b hb s hs
  · intro b hb s hs hocc
    exact hwf.tophashInv _ (getD_mem hi) b hb s hs hocc
  · rw [← hwf.keyEq]
    exact hfind

theorem bucket_mem_set_modify {bl : List hashmapChain} {idx : Nat} {q : Nat × Nat}
    {f : hashmapSlot → hashmapSlot} {c : hashmapChain} {b : hashmapBucket}
    (hidx : idx < bl.length)
    (hc : c ∈ bl.set idx (chainModifySlot (bl.getD idx []) q f))
    (hb : b ∈ c) :
    (∃ c0 ∈ bl, b ∈ c0) ∨
    ∃ b0, (∃ c0 ∈ bl, b0 ∈ c0) ∧ b = b0.set q.2 (f (chainGetSlot (bl.getD idx []) q)) := by
  rcases List.mem_or_eq_of_mem_set hc with hc' | rfl
  · exact Or.inl ⟨c, hc', hb⟩
  · rcases List.mem_or_eq_of_mem_set hb with hb' | rfl
    · exact Or.inl ⟨bl.getD idx [], getD_mem hidx, hb'⟩
    · by_cases hq : q.1 < (bl.getD idx []).length
      · exact Or.inr ⟨_, ⟨bl.getD idx [], getD_mem hidx, getD_mem hq⟩, rfl⟩
      · rw [chainModifySlot, List.set_eq_of_length_le (by omega)] at hb
        exact Or.inl ⟨bl.getD idx [], getD_mem hidx, hb⟩

theorem bucket_mem_set_append {bl : List hashmapChain} {idx : Nat} {nb : hashmapBucket}
    {c : hashmapChain} {b : hashmapBucket}
    (hidx : idx < bl.length)
    (hc : c ∈ bl.set idx (bl.getD idx [] ++ [nb]))
    (hb : b ∈ c) :
    (∃ c0 ∈ bl, b ∈ c0) ∨ b = nb := by
  rcases List.mem_or_eq_of_mem_set hc with hc' | rfl
  · exact Or.inl ⟨c, hc', hb⟩
  · rcases List.mem_append.mp hb with hb' | hb'
    · exact Or.inl ⟨bl.getD idx [], getD_mem hidx, hb'⟩
    · exact Or.inr (by simpa using hb')

/-! ## Preservation of the invariants by the set body -/

theorem setNoGrow_WF_overwrite {m : hashmap} (hwf : m.WF) {k v : List Nat} {H : Nat}
    (hk : k.length = m.keySize) (hv : v.length = m.valueSize)
    (hH : H = m.keyHash k m.keySize m.seed) {q : Nat × Nat}
    (hfind : chainFindSlot (slotMatches m.keyEqual m.keySize k (hashmapTopHash H))
      (m.buckets.getD (hashmapBucketIndex m H) []) = some q) :
    (hashmapSetNoGrow m k v H).WF ∧ (hashmapSetNoGrow m k v H).count = m.count := by
  have hsh := hwf.toWFShape
  have hidx : hashmapBucketIndex m H < m.buckets.length := by
    rw [hsh.bucketsLength]; exact hashmapBucketIndex_lt m H
  obtain ⟨h1, h2, hp⟩ := chainFindSlot_some hfind
  obtain ⟨bq, hbq, hsq⟩ := chainGetSlot_mem h1 h2
  have hcm : m.buckets.getD (hashmapBucketIndex m H) [] ∈ m.buckets := getD_mem hidx
  have hqkeyl : (chainGetSlot (m.buckets.getD (hashmapBucketIndex m H) []) q).key.length
      = m.keySize := hsh.keyLength _ hcm bq hbq _ hsq
  have hqvall : (chainGetSlot (m.buckets.getD (hashmapBucketIndex m H) []) q).val.length
      = m.valueSize := hsh.valLength _ hcm bq hbq _ hsq
  have hpand := hp
  simp only [slotMatches, Bool.and_eq_true, beq_iff_eq] at hpand
  have hqocc : (chainGetSlot (m.buckets.getD (hashmapBucketIndex m H) []) q).tophash ≠ 0 := by
    rw [hpand.1]; exact hashmapTopHash_ne_zero H
  obtain ⟨l1, l2, he1, he2⟩ := chainEntries_modify_occ_occ m.keySize m.valueSize
    (f := fun s => { s with val := memcpy s.val v m.valueSize }) h1 h2 hqocc hqocc
  have hTm := hashmapEntries_decomp hsh.bucketsLength hidx
  rw [hashmapSetNoGrow_overwrite hfind]
  have hlen' : (m.buckets.set (hashmapBucketIndex m H)
      (chainModifySlot (m.buckets.getD (hashmapBucketIndex m H) []) q
        (fun s => { s with val := memcpy s.val v m.valueSize }))).length
      = numBuckets m := by
    rw [List.length_set]; exact hsh.bucketsLength
  have hTm' := hashmapEntries_set_decomp hsh.bucketsLength hidx
    ({ m with buckets := (m.buckets.set (hashmapBucketIndex m H)
      (chainModifySlot (m.buckets.getD (hashmapBucketIndex m H) []) q
        (fun s => { s with val := memcpy s.val v m.valueSize }))) }) rfl rfl rfl rfl
  constructor
  · refine ⟨⟨hlen', ?_, ?_, ?_⟩, hwf.keyEq, ?_, ?_, ?_, ?_⟩
    · -- slot counts
      intro c0 hc0 b hb
      rcases bucket_mem_set_modify hidx hc0 hb with ⟨c1, hc1, hb1⟩ | ⟨b0, ⟨c1, hc1, hb1⟩, rfl⟩
      · exact hsh.slotsLength c1 hc1 b hb1
      · rw [List.length_set]; exact hsh.slotsLength c1 hc1 b0 hb1
    · -- key cell sizes
      intro c0 hc0 b hb s hs
      rcases slot_mem_set_modify hidx hc0 hb hs with ⟨c1, hc1, b1, hb1, hs1⟩ | rfl
      · exact hsh.keyLength c1 hc1 b1 hb1 s hs1
      · exact hqkeyl
    · -- value cell sizes
      intro c0 hc0 b hb s hs
      rcases slot_mem_set_modify hidx hc0 hb hs with ⟨c1, hc1, b1, hb1, hs1⟩ | rfl
      · exact hsh.valLength c1 hc1 b1 hb1 s hs1
      · exact memcpy_length hqvall hv
    · -- count invariant
      show m.count = _
      rw [hashmapOccupied_eq_length hlen', hTm', he2, hwf.countInv,
        hashmapOccupied_eq_length hsh.bucketsLength, hTm, he1]
      simp [List.length_append]
    · -- tophash invariant
      intro c0 hc0 b hb s hs hocc0
      rcases slot_mem_set_modify hidx hc0 hb hs with ⟨c1, hc1, b1, hb1, hs1⟩ | rfl
      · exact hwf.tophashInv c1 hc1 b1 hb1 s hs1 hocc0
      · exact hwf.tophashInv _ hcm bq hbq
          (chainGetSlot (m.buckets.getD (hashmapBucketIndex m H) []) q) hsq hqocc
    · -- placement
      intro i hi e he
      rw [List.length_set] at hi
      by_cases hiidx : i = hashmapBucketIndex m H
      · subst hiidx
        rw [List.getElem_set_self (by rw [List.length_set]; exact hi), he2] at he
        have he' : e ∈ chainEntries m.keySize m.valueSize
            (m.buckets.getD (hashmapBucketIndex m H) []) ∨
            e = slotEntry m.keySize m.valueSize
              ((fun s => { s with val := memcpy s.val v m.valueSize })
                (chainGetSlot (m.buckets.getD (hashmapBucketIndex m H) []) q)) := by
          rw [he1]
          rcases List.mem_append.mp he with h | h
          · exact Or.inl (List.mem_append.mpr (Or.inl h))
          · rcases List.mem_cons.mp h with h | h
            · exact Or.inr h
            · exact Or.inl (List.mem_append.mpr (Or.inr (List.mem_cons_of_mem _ h)))
        rcases he' with he' | rfl
        · have := hwf.placement (hashmapBucketIndex m H) hidx e
          rw [← List.getD_eq_getElem m.buckets [] hidx] at this
          exact this he'
        · have := hwf.placement (hashmapBucketIndex m H) hidx
            (slotEntry m.keySize m.valueSize
              (chainGetSlot (m.buckets.getD (hashmapBucketIndex m H) []) q))
          rw [← List.getD_eq_getElem m.buckets [] hidx] at this
          exact this (chainEntry_mem_of_occupied m.keySize m.valueSize h1 h2 hqocc)
      · rw [List.getElem_set_ne (fun hh => hiidx hh.symm)] at he
        exact hwf.placement i hi e he
    · -- distinctness
      show (List.map Prod.fst (hashmapEntries _)).Nodup
      have hkeys : List.map Prod.fst (hashmapEntries ({ m with
          buckets := (m.buckets.set (hashmapBucketIndex m H)
            (chainModifySlot (m.buckets.getD (hashmapBucketIndex m H) []) q
              (fun s => { s with val := memcpy s.val v m.valueSize }))) } : hashmap))
          = List.map Prod.fst (hashmapEntries m) := by
        rw [hTm', he2, hTm, he1]
        simp [slotEntry]
      rw [hkeys]
      exact hwf.distinct
  · show m.count = m.count
    rfl

theorem nodup_insert_middle {α : Type} {E1 l1 l2 E2 : List α} {a : α}
    (hnd : (E1 ++ (l1 ++ l2) ++ E2).Nodup) (hna : a ∉ E1 ++ (l1 ++ l2) ++ E2) :
    (E1 ++ (l1 ++ a :: l2) ++ E2).Nodup := by
  have e1 : E1 ++ (l1 ++ a :: l2) ++ E2 = (E1 ++ l1) ++ a :: (l2 ++ E2) := by
    simp [List.append_assoc]
  have e2 : E1 ++ (l1 ++ l2) ++ E2 = (E1 ++ l1) ++ (l2 ++ E2) := by
    simp [List.append_assoc]
  rw [e2] at hnd hna
  rw [e1, List.nodup_middle, List.nodup_cons]
  exact ⟨hna, hnd⟩


theorem nodup_insert_middle_nil {α : Type} {E1 l1 E2 : List α} {a : α}
    (hnd : (E1 ++ (l1 ++ []) ++ E2).Nodup) (hna : a ∉ E1 ++ (l1 ++ []) ++ E2) :
    (E1 ++ (l1 ++ a :: []) ++ E2).Nodup :=
  nodup_insert_middle hnd hna

theorem setNoGrow_WF_insert {m : hashmap} (hwf : m.WF) {k v : List Nat} {H : Nat}
    (hk : k.length = m.keySize) (hv : v.length = m.valueSize)
    (hH : H = m.keyHash k m.keySize m.seed) {e : Nat × Nat}
    (hfind : chainFindSlot (slotMatches m.keyEqual m.keySize k (hashmapTopHash H))
      (m.buckets.getD (hashmapBucketIndex m H) []) = none)
    (hempty : chainFindSlot slotEmpty
      (m.buckets.getD (hashmapBucketIndex m H) []) = some e) :
    (hashmapSetNoGrow m k v H).WF ∧ (hashmapSetNoGrow m k v H).count = m.count + 1 := by
  subst hH
  have hsh := hwf.toWFShape
  have hidx : hashmapBucketIndex m (m.keyHash k m.keySize m.seed) < m.buckets.length := by
    rw [hsh.bucketsLength]; exact hashmapBucketIndex_lt m _
  obtain ⟨h1, h2, hp⟩ := chainFindSlot_some hempty
  obtain ⟨bq, hbq, hsq⟩ := chainGetSlot_mem h1 h2
  have hcm : m.buckets.getD (hashmapBucketIndex m (m.keyHash k m.keySize m.seed)) [] ∈ m.buckets :=
    getD_mem hidx
  have hqkeyl : (chainGetSlot
      (m.buckets.getD (hashmapBucketIndex m (m.keyHash k m.keySize m.seed)) []) e).key.length
      = m.keySize := hsh.keyLength _ hcm bq hbq _ hsq
  have hqvall : (chainGetSlot
      (m.buckets.getD (hashmapBucketIndex m (m.keyHash k m.keySize m.seed)) []) e).val.length
      = m.valueSize := hsh.valLength _ hcm bq hbq _ hsq
  have hq0 : (chainGetSlot
      (m.buckets.getD (hashmapBucketIndex m (m.keyHash k m.keySize m.seed)) []) e).tophash = 0 := by
    simpa [slotEmpty] using hp
  have hnotink := key_not_mem_entries_of_find_none hwf hk hfind
  obtain ⟨l1, l2, he1, he2⟩ := chainEntries_modify_empty_occ m.keySize m.valueSize
    (f := fun s =>
      { tophash := hashmapTopHash (m.keyHash k m.keySize m.seed)
        key := memcpy s.key k m.keySize
        val := memcpy s.val v m.valueSize }) h1 h2 hq0
    (hashmapTopHash_ne_zero (m.keyHash k m.keySize m.seed))
  have hse : slotEntry m.keySize m.valueSize
      ((fun s => ({ tophash := hashmapTopHash (m.keyHash k m.keySize m.seed),
                    key := memcpy s.key k m.keySize,
                    val := memcpy s.val v m.valueSize } : hashmapSlot))
        (chainGetSlot
          (m.buckets.getD (hashmapBucketIndex m (m.keyHash k m.keySize m.seed)) []) e))
      = (k, v) := by
    simp only [slotEntry]
    rw [memcpy_full hqkeyl hk, memcpy_full hqvall hv,
      memcpy_full (by simp) hk, memcpy_full (by simp) hv]
  rw [hse] at he2
  have hTm := hashmapEntries_decomp hsh.bucketsLength hidx
  rw [hashmapSetNoGrow_insert hfind hempty]
  have hlen' : (m.buckets.set (hashmapBucketIndex m (m.keyHash k m.keySize m.seed))
      (chainModifySlot
        (m.buckets.getD (hashmapBucketIndex m (m.keyHash k m.keySize m.seed)) []) e
        (fun s =>
          { tophash := hashmapTopHash (m.keyHash k m.keySize m.seed)
            key := memcpy s.key k m.keySize
            val := memcpy s.val v m.valueSize }))).length
      = numBuckets m := by
    rw [List.length_set]; exact hsh.bucketsLength
  have hTm' := hashmapEntries_set_decomp hsh.bucketsLength hidx
    ({ m with
      count := m.count + 1
      buckets := (m.buckets.set (hashmapBucketIndex m (m.keyHash k m.keySize m.seed))
        (chainModifySlot
          (m.buckets.getD (hashmapBucketIndex m (m.keyHash k m.keySize m.seed)) []) e
          (fun s =>
            { tophash := hashmapTopHash (m.keyHash k m.keySize m.seed)
              key := memcpy s.key k m.keySize
              val := memcpy s.val v m.valueSize }))) }) rfl rfl rfl rfl
  have hknotin : k ∉ List.map Prod.fst (hashmapEntries m) := by
    intro hmem
    rw [List.mem_map] at hmem
    obtain ⟨ep, hep, hfst⟩ := hmem
    refine hnotink ep.2 ?_
    have : ep = (k, ep.2) := by
      obtain ⟨e1, e2⟩ := ep
      simp only at hfst
      rw [hfst]
    rwa [← this]
  constructor
  · refine ⟨⟨hlen', ?_, ?_, ?_⟩, hwf.keyEq, ?_, ?_, ?_, ?_⟩
    · intro c0 hc0 b hb
      rcases bucket_mem_set_modify hidx hc0 hb with ⟨c1, hc1, hb1⟩ | ⟨b0, ⟨c1, hc1, hb1⟩, rfl⟩
      · exact hsh.slotsLength c1 hc1 b hb1
      · rw [List.length_set]; exact hsh.slotsLength c1 hc1 b0 hb1
    · intro c0 hc0 b hb s hs
      rcases slot_mem_set_modify hidx hc0 hb hs with ⟨c1, hc1, b1, hb1, hs1⟩ | rfl
      · exact hsh.keyLength c1 hc1 b1 hb1 s hs1
      · exact memcpy_length hqkeyl hk
    · intro c0 hc0 b hb s hs
      rcases slot_mem_set_modify hidx hc0 hb hs with ⟨c1, hc1, b1, hb1, hs1⟩ | rfl
      · exact hsh.valLength c1 hc1 b1 hb1 s hs1
      · exact memcpy_length hqvall hv
    · show m.count + 1 = _
      rw [hashmapOccupied_eq_length hlen', hTm', he2, hwf.countInv,
        hashmapOccupied_eq_length hsh.bucketsLength, hTm, he1]
      simp only [List.length_append, List.length_cons]
      omega
    · intro c0 hc0 b hb s hs hocc0
      rcases slot_mem_set_modify hidx hc0 hb hs with ⟨c1, hc1, b1, hb1, hs1⟩ | rfl
      · exact hwf.tophashInv c1 hc1 b1 hb1 s hs1 hocc0
      · show hashmapTopHash (m.keyHash k m.keySize m.seed)
          = hashmapTopHash (m.keyHash (memcpy _ k m.keySize) m.keySize m.seed)
        rw [memcpy_full hqkeyl hk]
    · intro i hi ee hee
      rw [List.length_set] at hi
      by_cases hiidx : i = hashmapBucketIndex m (m.keyHash k m.keySize m.seed)
      · subst hiidx
        rw [List.getElem_set_self (by rw [List.length_set]; exact hi), he2] at hee
        have hee' : ee ∈ chainEntries m.keySize m.valueSize
            (m.buckets.getD (hashmapBucketIndex m (m.keyHash k m.keySize m.seed)) []) ∨
            ee = (k, v) := by
          rw [he1]
          rcases List.mem_append.mp hee with h | h
          · exact Or.inl (List.mem_append.mpr (Or.inl h))
          · rcases List.mem_cons.mp h with h | h
            · exact Or.inr h
            · exact Or.inl (List.mem_append.mpr (Or.inr h))
        rcases hee' with hee' | rfl
        · have := hwf.placement (hashmapBucketIndex m (m.keyHash k m.keySize m.seed)) hidx ee
          rw [← List.getD_eq_getElem m.buckets [] hidx] at this
          exact this hee'
        · rfl
      · rw [List.getElem_set_ne (fun hh => hiidx hh.symm)] at hee
        exact hwf.placement i hi ee hee
    · show (List.map Prod.fst (hashmapEntries _)).Nodup
      rw [hTm', he2]
      simp only [List.map_append, List.map_cons]
      have hnd := hwf.distinct
      rw [hashmapKeys, hTm, he1] at hnd
      simp only [List.map_append] at hnd
      rw [hTm, he1] at hknotin
      simp only [List.map_append] at hknotin
      exact nodup_insert_middle hnd hknotin
  · show m.count + 1 = m.count + 1
    rfl

theorem emptySlot_tophash (ks vs : Nat) : (emptySlot ks vs).tophash = 0 := rfl

theorem bucketEntries_cons_occ {ks vs : Nat} {s : hashmapSlot} {ss : hashmapBucket}
    (h : s.tophash ≠ 0) :
    bucketEntries ks vs (s :: ss) = slotEntry ks vs s :: bucketEntries ks vs ss := by
  simp [bucketEntries, h, slotEntry]

theorem bucketEntries_replicate_empty (ks vs n ks' vs' : Nat) :
    bucketEntries ks vs (List.replicate n (emptySlot ks' vs')) = [] := by
  induction n with
  | zero => simp [bucketEntries]
  | succ n ih => simp [List.replicate_succ, bucketEntries, emptySlot_tophash, ih]

theorem bucketEntries_newBucket {m : hashmap} {k v : List Nat} {th : Nat}
    (hk : k.length = m.keySize) (hv : v.length = m.valueSize) (hth : th ≠ 0) :
    bucketEntries m.keySize m.valueSize (hashmapNewBucket m k v th) = [(k, v)] := by
  have hk1 : memcpy (List.replicate m.keySize 0) k m.keySize = k := memcpy_full (by simp) hk
  have hv1 : memcpy (List.replicate m.valueSize 0) v m.valueSize = v := memcpy_full (by simp) hv
  rw [hashmapNewBucket, bucketEntries_cons_occ hth, bucketEntries_replicate_empty]
  simp only [slotEntry]
  rw [hk1, hv1, hk1, hv1]

theorem setNoGrow_WF_newBucket {m : hashmap} (hwf : m.WF) {k v : List Nat} {H : Nat}
    (hk : k.length = m.keySize) (hv : v.length = m.valueSize)
    (hH : H = m.keyHash k m.keySize m.seed)
    (hfind : chainFindSlot (slotMatches m.keyEqual m.keySize k (hashmapTopHash H))
      (m.buckets.getD (hashmapBucketIndex m H) []) = none)
    (hempty : chainFindSlot slotEmpty
      (m.buckets.getD (hashmapBucketIndex m H) []) = none) :
    (hashmapSetNoGrow m k v H).WF ∧ (hashmapSetNoGrow m k v H).count = m.count + 1 := by
  subst hH
  have hsh := hwf.toWFShape
  have hidx : hashmapBucketIndex m (m.keyHash k m.keySize m.seed) < m.buckets.length := by
    rw [hsh.bucketsLength]; exact hashmapBucketIndex_lt m _
  have hcm : m.buckets.getD (hashmapBucketIndex m (m.keyHash k m.keySize m.seed)) [] ∈ m.buckets :=
    getD_mem hidx
  have hnotink := key_not_mem_entries_of_find_none hwf hk hfind
  have hnewent : chainEntries m.keySize m.valueSize
      (m.buckets.getD (hashmapBucketIndex m (m.keyHash k m.keySize m.seed)) []
        ++ [hashmapNewBucket m k v (hashmapTopHash (m.keyHash k m.keySize m.seed))])
      = chainEntries m.keySize m.valueSize
          (m.buckets.getD (hashmapBucketIndex m (m.keyHash k m.keySize m.seed)) [])
        ++ [(k, v)] := by
    rw [chainEntries_append, chainEntries_cons]
    rw [bucketEntries_newBucket hk hv (hashmapTopHash_ne_zero _)]
    simp [chainEntries]
  have hTm := hashmapEntries_decomp hsh.bucketsLength hidx
  rw [hashmapSetNoGrow_newBucket hfind hempty]
  have hlen' : (m.buckets.set (hashmapBucketIndex m (m.keyHash k m.keySize m.seed))
      (m.buckets.getD (hashmapBucketIndex m (m.keyHash k m.keySize m.seed)) []
        ++ [hashmapNewBucket m k v (hashmapTopHash (m.keyHash k m.keySize m.seed))])).length
      = numBuckets m := by
    rw [List.length_set]; exact hsh.bucketsLength
  have hTm' := hashmapEntries_set_decomp hsh.bucketsLength hidx
    ({ m with
      count := m.count + 1
      buckets := (m.buckets.set (hashmapBucketIndex m (m.keyHash k m.keySize m.seed))
        (m.buckets.getD (hashmapBucketIndex m (m.keyHash k m.keySize m.seed)) []
          ++ [hashmapNewBucket m k v (hashmapTopHash (m.keyHash k m.keySize m.seed))])) })
    rfl rfl rfl rfl
  have hknotin : k ∉ List.map Prod.fst (hashmapEntries m) := by
    intro hmem
    rw [List.mem_map] at hmem
    obtain ⟨ep, hep, hfst⟩ := hmem
    refine hnotink ep.2 ?_
    have : ep = (k, ep.2) := by
      obtain ⟨e1, e2⟩ := ep
      simp only at hfst
      rw [hfst]
    rwa [← this]
  constructor
  · refine ⟨⟨hlen', ?_, ?_, ?_⟩, hwf.keyEq, ?_, ?_, ?_, ?_⟩
    · intro c0 hc0 b hb
      rcases bucket_mem_set_append hidx hc0 hb with ⟨c1, hc1, hb1⟩ | rfl
      · exact hsh.slotsLength c1 hc1 b hb1
      · simp [hashmapNewBucket]
    · intro c0 hc0 b hb s hs
      rcases bucket_mem_set_append hidx hc0 hb with ⟨c1, hc1, hb1⟩ | rfl
      · exact hsh.keyLength c1 hc1 b hb1 s hs
      · rcases List.mem_cons.mp hs with rfl | hs'
        · exact memcpy_length (by simp) hk
        · rw [List.eq_of_mem_replicate hs']
          simp [emptySlot]
    · intro c0 hc0 b hb s hs
      rcases bucket_mem_set_append hidx hc0 hb with ⟨c1, hc1, hb1⟩ | rfl
      · exact hsh.valLength c1 hc1 b hb1 s hs
      · rcases List.mem_cons.mp hs with rfl | hs'
        · exact memcpy_length (by simp) hv
        · rw [List.eq_of_mem_replicate hs']
          simp [emptySlot]
    · show m.count + 1 = _
      rw [hashmapOccupied_eq_length hlen', hTm', hnewent, hwf.countInv,
        hashmapOccupied_eq_length hsh.bucketsLength, hTm]
      simp only [List.length_append, List.length_cons, List.length_nil]
      omega
    · intro c0 hc0 b hb s hs hocc0
      rcases bucket_mem_set_append hidx hc0 hb with ⟨c1, hc1, hb1⟩ | rfl
      · exact hwf.tophashInv c1 hc1 b hb1 s hs hocc0
      · rcases List.mem_cons.mp hs with rfl | hs'
        · show hashmapTopHash (m.keyHash k m.keySize m.seed)
            = hashmapTopHash (m.keyHash (memcpy _ k m.keySize) m.keySize m.seed)
          rw [memcpy_full (by simp) hk]
        · rw [List.eq_of_mem_replicate hs'] at hocc0
          simp [emptySlot] at hocc0
    · intro i hi ee hee
      rw [List.length_set] at hi
      by_cases hiidx : i = hashmapBucketIndex m (m.keyHash k m.keySize m.seed)
      · subst hiidx
        rw [List.getElem_set_self (by rw [List.length_set]; exact hi), hnewent] at hee
        rcases List.mem_append.mp hee with hee' | hee'
        · have := hwf.placement (hashmapBucketIndex m (m.keyHash k m.keySize m.seed)) hidx ee
          rw [← List.getD_eq_getElem m.buckets [] hidx] at this
          exact this hee'
        · have : ee = (k, v) := by simpa using hee'
          subst this
          rfl
      · rw [List.getElem_set_ne (fun hh => hiidx hh.symm)] at hee
        exact hwf.placement i hi ee hee
    · show (List.map Prod.fst (hashmapEntries _)).Nodup
      rw [hTm', hnewent]
      simp only [List.map_append, List.map_cons]
      have hnd := hwf.distinct
      rw [hashmapKeys, hTm] at hnd
      simp only [List.map_append] at hnd
      rw [hTm] at hknotin
      simp only [List.map_append] at hknotin
      have h2 := nodup_insert_middle_nil
        (by simpa using hnd) (by simpa using hknotin)
      simpa using h2
  · show m.count + 1 = m.count + 1
    rfl

theorem hashmapLookupOwn_eq_none_iff (m : hashmap) (k : List Nat) :
    hashmapLookupOwn m k = none ↔
      chainFindSlot (slotMatches m.keyEqual m.keySize k
          (hashmapTopHash (m.keyHash k m.keySize m.seed)))
        (m.buckets.getD (hashmapBucketIndex m (m.keyHash k m.keySize m.seed)) []) = none := by
  simp [hashmapLookupOwn, hashmapLookup, Option.map_eq_none']

/-- The scan-and-insert body of `hashmapSet`, on a well-formed table and with
the hash the discipline wrappers supply, preserves every invariant and
increments `count` exactly when the key was absent. -/
theorem hashmapSetNoGrow_WF {m : hashmap} (hwf : m.WF) {k v : List Nat}
    (hk : k.length = m.keySize) (hv : v.length = m.valueSize) :
    (hashmapSetNoGrow m k v (m.keyHash k m.keySize m.seed)).WF ∧
    (hashmapSetNoGrow m k v (m.keyHash k m.keySize m.seed)).count
      = m.count + (if hashmapLookupOwn m k = none then 1 else 0) := by
  cases hfind : chainFindSlot (slotMatches m.keyEqual m.keySize k
      (hashmapTopHash (m.keyHash k m.keySize m.seed)))
      (m.buckets.getD (hashmapBucketIndex m (m.keyHash k m.keySize m.seed)) []) with
  | some q =>
    have h1 := setNoGrow_WF_overwrite hwf hk hv rfl hfind
    have hnn : ¬(hashmapLookupOwn m k = none) := by
      rw [hashmapLookupOwn_eq_none_iff, hfind]
      simp
    rw [if_neg hnn]
    exact ⟨h1.1, by rw [h1.2]; omega⟩
  | none =>
    have hnone : hashmapLookupOwn m k = none := (hashmapLookupOwn_eq_none_iff m k).mpr hfind
    rw [if_pos hnone]
    cases hempty : chainFindSlot slotEmpty
        (m.buckets.getD (hashmapBucketIndex m (m.keyHash k m.keySize m.seed)) []) with
    | some e => exact setNoGrow_WF_insert hwf hk hv rfl hfind hempty
    | none => exact setNoGrow_WF_newBucket hwf hk hv rfl hfind hempty

theorem hashmapSetAux_no_grow {fs : hashmap → Nat} {fuel : Nat} {m : hashmap}
    {k v : List Nat} {H : Nat} (h : ¬ 6 <<< m.bucketBits < m.count) :
    hashmapSetAux fs fuel m k v H = hashmapSetNoGrow m k v H := by
  rw [hashmapSetAux.eq_def]
  simp [hashmapOverLoadFactor, h]

theorem hashmapGrowInsertAll_nil (fs : hashmap → Nat) (fuel : Nat) (n : hashmap) :
    hashmapGrowInsertAll fs fuel [] n = n := by
  rw [hashmapGrowInsertAll.eq_def]

theorem hashmapGrowInsertAll_cons (fs : hashmap → Nat) (fuel : Nat)
    (e : List Nat × List Nat) (rest : List (List Nat × List Nat)) (n : hashmap) :
    hashmapGrowInsertAll fs fuel (e :: rest) n
      = hashmapGrowInsertAll fs fuel rest
          (hashmapSetAux fs fuel n e.1 e.2 (n.keyHash e.1 n.keySize n.seed)) := by
  rw [hashmapGrowInsertAll.eq_def]

theorem hashmapSetNoGrow_fields (m : hashmap) (k v : List Nat) (H : Nat) :
    (hashmapSetNoGrow m k v H).bucketsId = m.bucketsId ∧
    (hashmapSetNoGrow m k v H).seed = m.seed ∧
    (hashmapSetNoGrow m k v H).keySize = m.keySize ∧
    (hashmapSetNoGrow m k v H).valueSize = m.valueSize ∧
    (hashmapSetNoGrow m k v H).bucketBits = m.bucketBits ∧
    (hashmapSetNoGrow m k v H).keyEqual = m.keyEqual ∧
    (hashmapSetNoGrow m k v H).keyHash = m.keyHash := by
  cases hfind : chainFindSlot (slotMatches m.keyEqual m.keySize k (hashmapTopHash H))
      (m.buckets.getD (hashmapBucketIndex m H) []) with
  | some q =>
    rw [hashmapSetNoGrow_overwrite hfind]
    exact ⟨rfl, rfl, rfl, rfl, rfl, rfl, rfl⟩
  | none =>
    cases hempty : chainFindSlot slotEmpty (m.buckets.getD (hashmapBucketIndex m H) []) with
    | some e =>
      rw [hashmapSetNoGrow_insert hfind hempty]
      exact ⟨rfl, rfl, rfl, rfl, rfl, rfl, rfl⟩
    | none =>
      rw [hashmapSetNoGrow_newBucket hfind hempty]
      exact ⟨rfl, rfl, rfl, rfl, rfl, rfl, rfl⟩

/-- The effect of the re-insertion loop of `hashmapGrow`, by induction on the
materialised entries: starting from a well-formed table whose headroom covers
all the entries, it inserts everything, never re-triggering a grow. -/
theorem hashmapGrowInsertAll_WF (freshSeed : hashmap → Nat) (fuel : Nat) :
    ∀ (es : List (List Nat × List Nat)) {n : hashmap}, n.WF →
    (∀ e ∈ es, e.1.length = n.keySize ∧ e.2.length = n.valueSize) →
    (es.map Prod.fst).Nodup →
    (∀ e ∈ es, hashmapLookupOwn n e.1 = none) →
    n.count + es.length ≤ 6 * 2 ^ n.bucketBits + 1 →
    (hashmapGrowInsertAll freshSeed fuel es n).WF ∧
    (hashmapGrowInsertAll freshSeed fuel es n).count = n.count + es.length ∧
    ((hashmapGrowInsertAll freshSeed fuel es n).bucketsId = n.bucketsId ∧
     (hashmapGrowInsertAll freshSeed fuel es n).seed = n.seed ∧
     (hashmapGrowInsertAll freshSeed fuel es n).keySize = n.keySize ∧
     (hashmapGrowInsertAll freshSeed fuel es n).valueSize = n.valueSize ∧
     (hashmapGrowInsertAll freshSeed fuel es n).bucketBits = n.bucketBits ∧
     (hashmapGrowInsertAll freshSeed fuel es n).keyEqual = n.keyEqual ∧
     (hashmapGrowInsertAll freshSeed fuel es n).keyHash = n.keyHash) ∧
    (∀ e ∈ es, hashmapLookupOwn (hashmapGrowInsertAll freshSeed fuel es n) e.1 = some e.2) ∧
    (∀ k, k.length = n.keySize → k ∉ es.map Prod.fst →
      hashmapLookupOwn (hashmapGrowInsertAll freshSeed fuel es n) k
        = hashmapLookupOwn n k) := by
  intro es
  induction es with
  | nil =>
    intro n hwf _ _ _ _
    rw [hashmapGrowInsertAll_nil]
    exact ⟨hwf, by simp, ⟨rfl, rfl, rfl, rfl, rfl, rfl, rfl⟩, by simp, fun k _ _ => rfl⟩
  | cons e rest ih =>
    intro n hwf hlens hnd hfresh hload
    have he1len : e.1.length = n.keySize := (hlens e (by simp)).1
    have he2len : e.2.length = n.valueSize := (hlens e (by simp)).2
    have hsetaux : hashmapSetAux freshSeed fuel n e.1 e.2 (n.keyHash e.1 n.keySize n.seed)
        = hashmapSetNoGrow n e.1 e.2 (n.keyHash e.1 n.keySize n.seed) := by
      apply hashmapSetAux_no_grow
      rw [Nat.shiftLeft_eq]
      simp only [List.length_cons] at hload
      omega
    have hstep := hashmapSetNoGrow_WF hwf he1len he2len
    have hfields := hashmapSetNoGrow_fields n e.1 e.2 (n.keyHash e.1 n.keySize n.seed)
    obtain ⟨hfid, hfseed, hfks, hfvs, hfbb, hfke, hfkh⟩ := hfields
    have hcount1 : (hashmapSetNoGrow n e.1 e.2 (n.keyHash e.1 n.keySize n.seed)).count
        = n.count + 1 := by
      rw [hstep.2, hfresh e (by simp), if_pos rfl]
    have hheadnotin : e.1 ∉ rest.map Prod.fst := by
      have := hnd
      simp only [List.map_cons, List.nodup_cons] at this
      exact this.1
    -- lookups with the table's own operator, rewritten to n's operator
    have hlookOwn : ∀ k : List Nat,
        hashmapLookupOwn (hashmapSetNoGrow n e.1 e.2 (n.keyHash e.1 n.keySize n.seed)) k
        = hashmapLookup (hashmapSetNoGrow n e.1 e.2 (n.keyHash e.1 n.keySize n.seed)) k
            (n.keyHash k n.keySize n.seed) := by
      intro k
      rw [hashmapLookupOwn, hfkh, hfks, hfseed]
    have hlookSelf : hashmapLookupOwn
        (hashmapSetNoGrow n e.1 e.2 (n.keyHash e.1 n.keySize n.seed)) e.1 = some e.2 := by
      rw [hlookOwn]
      exact lookup_setNoGrow_self hwf.toWFShape hwf.keyEq he1len he2len _
    have hlookOther : ∀ k : List Nat, k.length = n.keySize → k ≠ e.1 →
        hashmapLookupOwn (hashmapSetNoGrow n e.1 e.2 (n.keyHash e.1 n.keySize n.seed)) k
        = hashmapLookupOwn n k := by
      intro k hklen hkne
      rw [hlookOwn]
      rw [lookup_setNoGrow_other hwf.toWFShape hwf.keyEq he1len hklen hkne _ _]
      rfl
    have hih := ih (n := hashmapSetNoGrow n e.1 e.2 (n.keyHash e.1 n.keySize n.seed))
      hstep.1
      (by
        intro e' he'
        rw [hfks, hfvs]
        exact hlens e' (by simp [he']))
      (by
        simp only [List.map_cons, List.nodup_cons] at hnd
        exact hnd.2)
      (by
        intro e' he'
        have hne : e'.1 ≠ e.1 := by
          intro hh
          exact hheadnotin (hh ▸ List.mem_map_of_mem Prod.fst he')
        rw [hlookOther e'.1 ((hlens e' (by simp [he'])).1) hne]
        exact hfresh e' (by simp [he']))
      (by
        rw [hcount1, hfbb]
        simp only [List.length_cons] at hload
        omega)
    rw [hashmapGrowInsertAll_cons, hsetaux]
    obtain ⟨ihwf, ihcount, ⟨ihid, ihseed, ihks, ihvs, ihbb, ihke, ihkh⟩, ihlook, ihother⟩ := hih
    refine ⟨ihwf, ?_, ?_, ?_, ?_⟩
    · rw [ihcount, hcount1]
      simp only [List.length_cons]
      omega
    · rw [ihid, ihseed, ihks, ihvs, ihbb, ihke, ihkh]
      exact ⟨hfid, hfseed, hfks, hfvs, hfbb, hfke, hfkh⟩
    · intro e' he'
      rcases List.mem_cons.mp he' with rfl | he''
      · rw [ihother e'.1 (by rw [hfks]; exact he1len) hheadnotin]
        exact hlookSelf
      · exact ihlook e' he''
    · intro k hklen hknotin
      have hkne : k ≠ e.1 := by
        intro hh
        exact hknotin (by simp [hh])
      have hknotrest : k ∉ rest.map Prod.fst := by
        intro hh
        exact hknotin (by simp [hh])
      rw [ihother k (by rw [hfks]; exact hklen) hknotrest]
      exact hlookOther k hklen hkne

theorem chainEntries_emptyChain (ks vs ks' vs' : Nat) :
    chainEntries ks vs [emptyBucket ks' vs'] = [] := by
  simp only [chainEntries, List.map_cons, List.map_nil, emptyBucket]
  rw [bucketEntries_replicate_empty]
  simp

theorem hashmapLookup_all_empty {m0 : hashmap}
    (hb : ∀ c ∈ m0.buckets, c = [emptyBucket m0.keySize m0.valueSize])
    (k : List Nat) (H : Nat) :
    hashmapLookup m0 k H = none := by
  have hpe : slotMatches m0.keyEqual m0.keySize k (hashmapTopHash H)
      (emptySlot m0.keySize m0.valueSize) = false := by
    simp only [slotMatches, emptySlot_tophash, zero_beq_topHash, Bool.false_and]
  have hfind : chainFindSlot (slotMatches m0.keyEqual m0.keySize k (hashmapTopHash H))
      (m0.buckets.getD (hashmapBucketIndex m0 H) []) = none := by
    by_cases hlt : hashmapBucketIndex m0 H < m0.buckets.length
    · rw [hb _ (getD_mem hlt)]
      simp only [chainFindSlot, emptyBucket]
      rw [bucketFindSlot_replicate_none hpe]
      simp [chainFindSlot]
    · rw [List.getD_eq_default _ _ (by omega)]
      simp [chainFindSlot]
  simp only [hashmapLookup]
  rw [hfind]
  rfl

theorem flatten_replicate_nil {α : Type} (n : Nat) :
    (List.replicate n ([] : List α)).flatten = [] := by
  induction n with
  | zero => simp
  | succ n ih => simp [List.replicate_succ, ih]

theorem lookupOwn_some_mem_entries {m : hashmap} (hwf : m.WF) {k w : List Nat}
    (hk : k.length = m.keySize) (h : hashmapLookupOwn m k = some w) :
    (k, w) ∈ hashmapEntries m := by
  have hidx : hashmapBucketIndex m (m.keyHash k m.keySize m.seed) < m.buckets.length := by
    rw [hwf.bucketsLength]; exact hashmapBucketIndex_lt m _
  rw [hashmapLookupOwn, hashmapLookup] at h
  obtain ⟨q, hfind, hw⟩ := Option.map_eq_some'.mp h
  obtain ⟨h1, h2, hp⟩ := chainFindSlot_some hfind
  obtain ⟨bq, hbq, hsq⟩ := chainGetSlot_mem h1 h2
  have hcm : m.buckets.getD (hashmapBucketIndex m (m.keyHash k m.keySize m.seed)) [] ∈ m.buckets :=
    getD_mem hidx
  have hpand := hp
  simp only [slotMatches, Bool.and_eq_true, beq_iff_eq] at hpand
  have hqkey : (chainGetSlot
      (m.buckets.getD (hashmapBucketIndex m (m.keyHash k m.keySize m.seed)) []) q).key = k := by
    rw [hwf.keyEq] at hpand
    exact ((memequal_iff hk (hwf.keyLength _ hcm bq hbq _ hsq)).mp hpand.2).symm
  have hqocc : (chainGetSlot
      (m.buckets.getD (hashmapBucketIndex m (m.keyHash k m.keySize m.seed)) []) q).tophash
      ≠ 0 := by
    rw [hpand.1]; exact hashmapTopHash_ne_zero _
  have hmem := chainEntry_mem_of_occupied m.keySize m.valueSize h1 h2 hqocc
  have hse : slotEntry m.keySize m.valueSize
      (chainGetSlot (m.buckets.getD (hashmapBucketIndex m (m.keyHash k m.keySize m.seed)) []) q)
      = (k, w) := by
    simp only [slotEntry]
    rw [hqkey, memcpy_full (by simp) hk,
      memcpy_full (by simp) (hwf.valLength _ hcm bq hbq _ hsq), hw]
  rw [hse] at hmem
  rw [hashmapEntries_decomp hwf.bucketsLength hidx]
  exact List.mem_append.mpr (Or.inl (List.mem_append.mpr (Or.inr hmem)))

theorem entry_lengths_of_mem_entries {m : hashmap} (hsh : m.WFShape)
    {e : List Nat × List Nat} (he : e ∈ hashmapEntries m) :
    e.1.length = m.keySize ∧ e.2.length = m.valueSize := by
  obtain ⟨i, hi, hci⟩ := entry_mem_chain_of_mem_entries hsh.bucketsLength he
  have hcm : m.buckets[i] ∈ m.buckets := List.getElem_mem hi
  obtain ⟨b, hb, s, hs, hocc, he'⟩ := exists_slot_of_entry_mem hci
  subst he'
  constructor
  · simp only [slotEntry]
    exact memcpy_length (by simp) (hsh.keyLength _ hcm b hb s hs)
  · simp only [slotEntry]
    exact memcpy_length (by simp) (hsh.valLength _ hcm b hb s hs)

/-- `hashmapGrow` on a well-formed, load-bounded table: the clone has
`bucketBits + 1`, the fresh seed, the same count, and preserves every stored
binding. -/
theorem hashmapGrowAux_WF (fs : hashmap → Nat) (fuel : Nat) {m : hashmap}
    (hwf : m.WF) (hload : m.count ≤ 6 * 2 ^ m.bucketBits + 1) :
    (hashmapGrowAux fs fuel m).WF ∧
    (hashmapGrowAux fs fuel m).count = m.count ∧
    ((hashmapGrowAux fs fuel m).bucketBits = m.bucketBits + 1 ∧
     (hashmapGrowAux fs fuel m).seed = fs m ∧
     (hashmapGrowAux fs fuel m).keySize = m.keySize ∧
     (hashmapGrowAux fs fuel m).valueSize = m.valueSize ∧
     (hashmapGrowAux fs fuel m).keyEqual = m.keyEqual ∧
     (hashmapGrowAux fs fuel m).keyHash = m.keyHash ∧
     (hashmapGrowAux fs fuel m).bucketsId = m.bucketsId + 1) ∧
    (∀ k w, k.length = m.keySize → hashmapLookupOwn m k = some w →
      hashmapLookupOwn (hashmapGrowAux fs fuel m) k = some w) ∧
    (∀ k, k.length = m.keySize → hashmapLookupOwn m k = none →
      hashmapLookupOwn (hashmapGrowAux fs fuel m) k = none) := by
  have hshadowWF : (⟨List.replicate (1 <<< (m.bucketBits + 1))
      [emptyBucket m.keySize m.valueSize], m.bucketsId + 1, fs m, 0, m.keySize, m.valueSize,
      m.bucketBits + 1, m.keyEqual, m.keyHash⟩ : hashmap).WF := by
    refine ⟨⟨?_, ?_, ?_, ?_⟩, hwf.keyEq, ?_, ?_, ?_, ?_⟩
    · simp [numBuckets]
    · intro c hc b hb
      rw [List.eq_of_mem_replicate hc] at hb
      rcases List.mem_singleton.mp hb with rfl
      simp [emptyBucket]
    · intro c hc b hb s hs
      rw [List.eq_of_mem_replicate hc] at hb
      rcases List.mem_singleton.mp hb with rfl
      rw [List.eq_of_mem_replicate hs]
      simp [emptySlot]
    · intro c hc b hb s hs
      rw [List.eq_of_mem_replicate hc] at hb
      rcases List.mem_singleton.mp hb with rfl
      rw [List.eq_of_mem_replicate hs]
      simp [emptySlot]
    · show (0 : Nat) = hashmapOccupied _
      simp only [hashmapOccupied, chainOccupied]
      rw [List.map_replicate]
      simp [bucketOccupied, emptyBucket, List.filter_replicate, emptySlot_tophash]
    · intro c hc b hb s hs hocc
      rw [List.eq_of_mem_replicate hc] at hb
      rcases List.mem_singleton.mp hb with rfl
      rw [List.eq_of_mem_replicate hs] at hocc
      simp [emptySlot] at hocc
    · intro i hi e he
      simp only [List.getElem_replicate] at he
      rw [chainEntries_emptyChain] at he
      simp at he
    · show (List.map Prod.fst (hashmapEntries _)).Nodup
      have : hashmapEntries (⟨List.replicate (1 <<< (m.bucketBits + 1))
          [emptyBucket m.keySize m.valueSize], m.bucketsId + 1, fs m, 0, m.keySize,
          m.valueSize, m.bucketBits + 1, m.keyEqual, m.keyHash⟩ : hashmap) = [] := by
        unfold hashmapEntries
        simp only [List.take_replicate, List.map_replicate, chainEntries_emptyChain]
        exact flatten_replicate_nil _
      rw [this]
      simp
  have hlookEmpty : ∀ k : List Nat, hashmapLookupOwn (⟨List.replicate (1 <<< (m.bucketBits + 1))
      [emptyBucket m.keySize m.valueSize], m.bucketsId + 1, fs m, 0, m.keySize, m.valueSize,
      m.bucketBits + 1, m.keyEqual, m.keyHash⟩ : hashmap) k = none := by
    intro k
    apply hashmapLookup_all_empty
    intro c hc
    exact List.eq_of_mem_replicate hc
  have hentlength : (hashmapEntries m).length = m.count := by
    rw [← hashmapOccupied_eq_length hwf.bucketsLength, hwf.countInv]
  have hins := hashmapGrowInsertAll_WF fs fuel (hashmapEntries m)
    hshadowWF
    (by
      intro e he
      exact entry_lengths_of_mem_entries hwf.toWFShape he)
    hwf.distinct
    (by
      intro e _
      exact hlookEmpty e.1)
    (by
      show 0 + (hashmapEntries m).length ≤ 6 * 2 ^ (m.bucketBits + 1) + 1
      rw [hentlength]
      have this := hload
      have h2 : 6 * 2 ^ m.bucketBits ≤ 6 * 2 ^ (m.bucketBits + 1) := by
        have : (2:Nat) ^ m.bucketBits ≤ 2 ^ (m.bucketBits + 1) :=
          Nat.pow_le_pow_right (by norm_num) (by omega)
        omega
      omega)
  rw [hashmapGrowAux.eq_def]
  simp only
  obtain ⟨iwf, icount, ⟨iid, iseed, iks, ivs, ibb, ike, ikh⟩, ilook, hother⟩ := hins
  refine ⟨iwf, ?_, ⟨ibb, iseed, iks, ivs, ike, ikh, iid⟩, ?_, ?_⟩
  · rw [icount]
    show 0 + (hashmapEntries m).length = m.count
    rw [hentlength]
    omega
  · intro k w hk hlk
    have hmem := lookupOwn_some_mem_entries hwf hk hlk
    have := ilook (k, w) hmem
    exact this
  · intro k hk hlk
    have hnot : ∀ w, (k, w) ∉ hashmapEntries m :=
      key_not_mem_entries_of_find_none hwf hk
        ((hashmapLookupOwn_eq_none_iff m k).mp hlk)
    have hnm : k ∉ (hashmapEntries m).map Prod.fst := by
      intro hmem
      obtain ⟨e, he, hfst⟩ := List.mem_map.mp hmem
      have he' : (k, e.2) = e := by rw [← hfst]
      exact hnot e.2 (he' ▸ he)
    rw [hother k hk hnm]
    exact hlookEmpty k

/-! ## Freshly built tables -/

theorem hashmap.WF_of_empty {m0 : hashmap}
    (hb : m0.buckets = List.replicate (numBuckets m0) [emptyBucket m0.keySize m0.valueSize])
    (hc : m0.count = 0) (hke : m0.keyEqual = memequal) : m0.WF := by
  have hlen : m0.buckets.length = numBuckets m0 := by rw [hb]; simp
  have hent : hashmapEntries m0 = [] := by
    unfold hashmapEntries
    rw [hb]
    simp only [List.take_replicate, List.map_replicate, chainEntries_emptyChain]
    rw [flatten_replicate_nil]
  refine ⟨⟨hlen, ?_, ?_, ?_⟩, hke, ?_, ?_, ?_, ?_⟩
  · intro c hcm b hbm
    rw [hb] at hcm
    rw [List.eq_of_mem_replicate hcm] at hbm
    rcases List.mem_singleton.mp hbm with rfl
    simp [emptyBucket]
  · intro c hcm b hbm s hsm
    rw [hb] at hcm
    rw [List.eq_of_mem_replicate hcm] at hbm
    rcases List.mem_singleton.mp hbm with rfl
    rw [List.eq_of_mem_replicate hsm]
    simp [emptySlot]
  · intro c hcm b hbm s hsm
    rw [hb] at hcm
    rw [List.eq_of_mem_replicate hcm] at hbm
    rcases List.mem_singleton.mp hbm with rfl
    rw [List.eq_of_mem_replicate hsm]
    simp [emptySlot]
  · rw [hc, hashmapOccupied_eq_length hlen, hent]
    rfl
  · intro c hcm b hbm s hsm hocc
    rw [hb] at hcm
    rw [List.eq_of_mem_replicate hcm] at hbm
    rcases List.mem_singleton.mp hbm with rfl
    rw [List.eq_of_mem_replicate hsm] at hocc
    simp [emptySlot] at hocc
  · intro i hi e he
    have hlt : i < numBuckets m0 := by rw [← hlen]; exact hi
    have heq : m0.buckets[i] = [emptyBucket m0.keySize m0.valueSize] := by
      simp [hb, List.getElem_replicate]
    rw [heq, chainEntries_emptyChain] at he
    simp at he
  · show (List.map Prod.fst (hashmapEntries m0)).Nodup
    rw [hent]
    simp

theorem hashmapMake_WF (hash32 : ByteHash) (ihash : List Nat → Nat → Nat → Nat)
    (ieq : List Nat → List Nat → Nat → Bool) (ks vs hint seed bid : Nat) :
    (hashmapMake hash32 ihash ieq ks vs hint seed bid .binary).WF ∧
    (hashmapMake hash32 ihash ieq ks vs hint seed bid .binary).loadOK := by
  constructor
  · apply hashmap.WF_of_empty <;> rfl
  · intro _
    show (0 : Nat) ≤ _
    omega

/-! ## Delete -/

theorem find_none_of_key_not_mem {ks : Nat} (vs : Nat) {k : List Nat} {th : Nat} {c : hashmapChain}
    (hkeys : ∀ b ∈ c, ∀ s ∈ b, s.key.length = ks)
    (hk : k.length = ks) (hth : th ≠ 0)
    (hnot : ∀ w, (k, w) ∉ chainEntries ks vs c) :
    chainFindSlot (slotMatches memequal ks k th) c = none := by
  cases h : chainFindSlot (slotMatches memequal ks k th) c with
  | none => rfl
  | some q =>
    exfalso
    obtain ⟨w, hw⟩ := keyEntry_mem_of_find_some vs hkeys hk hth h
    exact hnot w hw

theorem deleteBody_WF {m : hashmap} (hwf : m.WF) {k : List Nat} {H : Nat} {q : Nat × Nat}
    (hfind : chainFindSlot (slotMatches m.keyEqual m.keySize k (hashmapTopHash H))
      (m.buckets.getD (hashmapBucketIndex m H) []) = some q) :
    ({ m with
        count := m.count - 1
        buckets := (m.buckets.set (hashmapBucketIndex m H)
          (chainModifySlot (m.buckets.getD (hashmapBucketIndex m H) []) q
            (fun s =>
              { tophash := 0
                key := memzero s.key m.keySize
                val := memzero s.val m.valueSize }))) } : hashmap).WF := by
  have hsh := hwf.toWFShape
  have hidx : hashmapBucketIndex m H < m.buckets.length := by
    rw [hsh.bucketsLength]; exact hashmapBucketIndex_lt m H
  obtain ⟨h1, h2, hp⟩ := chainFindSlot_some hfind
  obtain ⟨bq, hbq, hsq⟩ := chainGetSlot_mem h1 h2
  have hcm : m.buckets.getD (hashmapBucketIndex m H) [] ∈ m.buckets := getD_mem hidx
  have hqkeyl : (chainGetSlot (m.buckets.getD (hashmapBucketIndex m H) []) q).key.length
      = m.keySize := hsh.keyLength _ hcm bq hbq _ hsq
  have hqvall : (chainGetSlot (m.buckets.getD (hashmapBucketIndex m H) []) q).val.length
      = m.valueSize := hsh.valLength _ hcm bq hbq _ hsq
  have hpand := hp
  simp only [slotMatches, Bool.and_eq_true, beq_iff_eq] at hpand
  have hqocc : (chainGetSlot (m.buckets.getD (hashmapBucketIndex m H) []) q).tophash ≠ 0 := by
    rw [hpand.1]; exact hashmapTopHash_ne_zero H
  obtain ⟨l1, l2, he1, he2⟩ := chainEntries_modify_occ_empty m.keySize m.valueSize
    (f := fun s =>
      { tophash := 0
        key := memzero s.key m.keySize
        val := memzero s.val m.valueSize }) h1 h2 hqocc rfl
  have hTm := hashmapEntries_decomp hsh.bucketsLength hidx
  have hlen' : (m.buckets.set (hashmapBucketIndex m H)
      (chainModifySlot (m.buckets.getD (hashmapBucketIndex m H) []) q
        (fun s =>
          { tophash := 0
            key := memzero s.key m.keySize
            val := memzero s.val m.valueSize }))).length
      = numBuckets m := by
    rw [List.length_set]; exact hsh.bucketsLength
  have hTm' := hashmapEntries_set_decomp hsh.bucketsLength hidx
    ({ m with
      count := m.count - 1
      buckets := (m.buckets.set (hashmapBucketIndex m H)
        (chainModifySlot (m.buckets.getD (hashmapBucketIndex m H) []) q
          (fun s =>
            { tophash := 0
              key := memzero s.key m.keySize
              val := memzero s.val m.valueSize }))) }) rfl rfl rfl rfl
  refine ⟨⟨hlen', ?_, ?_, ?_⟩, hwf.keyEq, ?_, ?_, ?_, ?_⟩
  · intro c0 hc0 b hb
    rcases bucket_mem_set_modify hidx hc0 hb with ⟨c1, hc1, hb1⟩ | ⟨b0, ⟨c1, hc1, hb1⟩, rfl⟩
    · exact hsh.slotsLength c1 hc1 b hb1
    · rw [List.length_set]; exact hsh.slotsLength c1 hc1 b0 hb1
  · intro c0 hc0 b hb s hs
    rcases slot_mem_set_modify hidx hc0 hb hs with ⟨c1, hc1, b1, hb1, hs1⟩ | rfl
    · exact hsh.keyLength c1 hc1 b1 hb1 s hs1
    · show (memzero _ _).length = _
      rw [memzero_full hqkeyl, List.length_replicate]
  · intro c0 hc0 b hb s hs
    rcases slot_mem_set_modify hidx hc0 hb hs with ⟨c1, hc1, b1, hb1, hs1⟩ | rfl
    · exact hsh.valLength c1 hc1 b1 hb1 s hs1
    · show (memzero _ _).length = _
      rw [memzero_full hqvall, List.length_replicate]
  · show m.count - 1 = _
    rw [hashmapOccupied_eq_length hlen', hTm', he2, hwf.countInv,
      hashmapOccupied_eq_length hsh.bucketsLength, hTm, he1]
    simp only [List.length_append, List.length_cons]
    omega
  · intro c0 hc0 b hb s hs hocc0
    rcases slot_mem_set_modify hidx hc0 hb hs with ⟨c1, hc1, b1, hb1, hs1⟩ | rfl
    · exact hwf.tophashInv c1 hc1 b1 hb1 s hs1 hocc0
    · exact absurd rfl hocc0
  · intro i hi e he
    rw [List.length_set] at hi
    by_cases hiidx : i = hashmapBucketIndex m H
    · subst hiidx
      rw [List.getElem_set_self (by rw [List.length_set]; exact hi), he2] at he
      have he' : e ∈ chainEntries m.keySize m.valueSize
          (m.buckets.getD (hashmapBucketIndex m H) []) := by
        rw [he1]
        rcases List.mem_append.mp he with h | h
        · exact List.mem_append.mpr (Or.inl h)
        · exact List.mem_append.mpr (Or.inr (List.mem_cons_of_mem _ h))
      have := hwf.placement (hashmapBucketIndex m H) hidx e
      rw [← List.getD_eq_getElem m.buckets [] hidx] at this
      exact this he'
    · rw [List.getElem_set_ne (fun hh => hiidx hh.symm)] at he
      exact hwf.placement i hi e he
  · show (List.map Prod.fst (hashmapEntries _)).Nodup
    have hd := hwf.distinct
    show List.Nodup _
    rw [hTm', he2]
    have hsub : ((((m.buckets.take (hashmapBucketIndex m H)).map
          (chainEntries m.keySize m.valueSize)).flatten
        ++ (l1 ++ l2)
        ++ ((m.buckets.drop (hashmapBucketIndex m H + 1)).map
          (chainEntries m.keySize m.valueSize)).flatten).map Prod.fst).Sublist
        ((hashmapEntries m).map Prod.fst) := by
      rw [hTm, he1]
      apply List.Sublist.map
      exact List.Sublist.append
        (List.Sublist.append (List.Sublist.refl _)
          (List.Sublist.append (List.Sublist.refl _) (List.sublist_cons_self _ _)))
        (List.Sublist.refl _)
    exact List.Nodup.sublist hsub hd

theorem hashmapDelete_WF {m : hashmap} (hwf : m.WF) (k : List Nat) (H : Nat) :
    ∃ m', hashmapDelete (some m) k H = some m' ∧ m'.WF ∧
      m'.keySize = m.keySize ∧ m'.valueSize = m.valueSize ∧
      m'.bucketBits = m.bucketBits ∧ m'.seed = m.seed ∧
      m'.keyEqual = m.keyEqual ∧ m'.keyHash = m.keyHash ∧ m'.bucketsId = m.bucketsId := by
  cases hfind : chainFindSlot (slotMatches m.keyEqual m.keySize k (hashmapTopHash H))
      (m.buckets.getD (hashmapBucketIndex m H) []) with
  | none =>
    exact ⟨m, hashmapDelete_not_found hfind, hwf, rfl, rfl, rfl, rfl, rfl, rfl, rfl⟩
  | some q =>
    exact ⟨_, hashmapDelete_found hfind, deleteBody_WF hwf hfind,
      rfl, rfl, rfl, rfl, rfl, rfl, rfl⟩

theorem chain_keys_nodup {m : hashmap} (hwf : m.WF) {idx : Nat}
    (hidx : idx < m.buckets.length) :
    ((chainEntries m.keySize m.valueSize (m.buckets.getD idx [])).map Prod.fst).Nodup := by
  have hT := hashmapEntries_decomp hwf.bucketsLength hidx
  have hd := hwf.distinct
  show List.Nodup _
  refine List.Nodup.sublist ?_ hd
  show List.Sublist _ ((hashmapEntries m).map Prod.fst)
  rw [hT]
  apply List.Sublist.map
  exact List.Sublist.trans (List.sublist_append_left _ _)
    (by rw [List.append_assoc]; exact List.sublist_append_right _ _)

/-! ## The public set -/

theorem hashmapSet_eq_branches (fs : hashmap → Nat) (m : hashmap) (k v : List Nat) (H : Nat) :
    hashmapSet fs m k v H =
      if hashmapHasSpaceToGrow m.bucketBits && hashmapOverLoadFactor m.count m.bucketBits then
        hashmapSetNoGrow (hashmapGrowAux fs (ptrBits - 1) m) k v
          ((hashmapGrowAux fs (ptrBits - 1) m).keyHash k
            (hashmapGrowAux fs (ptrBits - 1) m).keySize
            (hashmapGrowAux fs (ptrBits - 1) m).seed)
      else hashmapSetNoGrow m k v H := by
  rw [hashmapSet, hashmapSetAux.eq_def]
  rfl

theorem hashmapSet_WF (fs : hashmap → Nat) {m : hashmap} (hwf : m.WF) (hload : m.loadOK)
    {k v : List Nat} (hk : k.length = m.keySize) (hv : v.length = m.valueSize) :
    (hashmapSet fs m k v (m.keyHash k m.keySize m.seed)).WF ∧
    (hashmapSet fs m k v (m.keyHash k m.keySize m.seed)).loadOK ∧
    hashmapLookupOwn (hashmapSet fs m k v (m.keyHash k m.keySize m.seed)) k = some v ∧
    (hashmapSet fs m k v (m.keyHash k m.keySize m.seed)).keySize = m.keySize ∧
    (hashmapSet fs m k v (m.keyHash k m.keySize m.seed)).valueSize = m.valueSize ∧
    (hashmapSet fs m k v (m.keyHash k m.keySize m.seed)).keyHash = m.keyHash := by
  rw [hashmapSet_eq_branches]
  by_cases hcond :
      (hashmapHasSpaceToGrow m.bucketBits && hashmapOverLoadFactor m.count m.bucketBits) = true
  · rw [if_pos hcond]
    simp only [hashmapHasSpaceToGrow, hashmapOverLoadFactor, Bool.and_eq_true,
      decide_eq_true_eq] at hcond
    have hbound : m.count ≤ 6 * 2 ^ m.bucketBits + 1 := by
      apply hload
      simp only [hashmapHasSpaceToGrow, decide_eq_true_eq]
      exact hcond.1
    obtain ⟨gwf, gcount, ⟨gbb, gseed, gks, gvs, gke, gkh, gid⟩, _, _⟩ :=
      hashmapGrowAux_WF fs (ptrBits - 1) hwf hbound
    set m' := hashmapGrowAux fs (ptrBits - 1) m with hm'
    have hk' : k.length = m'.keySize := by rw [gks]; exact hk
    have hv' : v.length = m'.valueSize := by rw [gvs]; exact hv
    obtain ⟨swf, scount⟩ := hashmapSetNoGrow_WF gwf hk' hv'
    obtain ⟨_, sseed, sks, svs, sbb, _, skh⟩ := hashmapSetNoGrow_fields m' k v
      (m'.keyHash k m'.keySize m'.seed)
    refine ⟨swf, ?_, ?_, ?_, ?_, ?_⟩
    · intro _
      rw [scount, sbb, gbb, gcount]
      have h2 : 6 * 2 ^ m.bucketBits + 2 ≤ 6 * 2 ^ (m.bucketBits + 1) + 1 := by
        have : (1:Nat) ≤ 2 ^ m.bucketBits := Nat.one_le_two_pow
        have : 6 * 2 ^ (m.bucketBits + 1) = 12 * 2 ^ m.bucketBits := by ring
        omega
      have hδ : (if hashmapLookupOwn m' k = none then 1 else 0) ≤ 1 := by
        split <;> omega
      omega
    · show hashmapLookup _ k _ = some v
      rw [skh, sks, sseed]
      exact lookup_setNoGrow_self gwf.toWFShape gwf.keyEq hk' hv' _
    · rw [sks, gks]
    · rw [svs, gvs]
    · rw [skh, gkh]
  · rw [if_neg hcond]
    obtain ⟨swf, scount⟩ := hashmapSetNoGrow_WF hwf hk hv
    obtain ⟨_, sseed, sks, svs, sbb, _, skh⟩ := hashmapSetNoGrow_fields m k v
      (m.keyHash k m.keySize m.seed)
    refine ⟨swf, ?_, ?_, ?_, ?_, ?_⟩
    · intro hsp
      rw [sbb] at hsp ⊢
      rw [scount]
      have hnotover : ¬ (hashmapOverLoadFactor m.count m.bucketBits = true) := by
        intro hov
        exact hcond (by rw [hsp, hov]; rfl)
      simp only [hashmapOverLoadFactor, decide_eq_true_eq, Nat.shiftLeft_eq] at hnotover
      have hδ : (if hashmapLookupOwn m k = none then 1 else 0) ≤ 1 := by
        split <;> omega
      omega
    · show hashmapLookup _ k _ = some v
      rw [skh, sks, sseed]
      exact lookup_setNoGrow_self hwf.toWFShape hwf.keyEq hk hv _
    · exact sks
    · exact svs
    · exact skh

/-! ## Iterated growth -/

theorem hashmapGrowIter_WF (fs : hashmap → Nat) :
    ∀ (n : Nat) {m : hashmap}, m.WF → m.count ≤ 6 * 2 ^ m.bucketBits + 1 →
    (hashmapGrowIter fs n m).WF ∧
    (hashmapGrowIter fs n m).count ≤ 6 * 2 ^ (hashmapGrowIter fs n m).bucketBits + 1 ∧
    (hashmapGrowIter fs n m).keySize = m.keySize ∧
    (hashmapGrowIter fs n m).bucketBits = m.bucketBits + n ∧
    ∀ k w, k.length = m.keySize → hashmapLookupOwn m k = some w →
      hashmapLookupOwn (hashmapGrowIter fs n m) k = some w := by
  intro n
  induction n with
  | zero =>
    intro m hwf hb
    exact ⟨hwf, hb, rfl, rfl, fun k w _ h => h⟩
  | succ n ih =>
    intro m hwf hb
    obtain ⟨gwf, gcount, ⟨gbb, gseed, gks, gvs, gke, gkh, gid⟩, glook, _⟩ :=
      hashmapGrowAux_WF fs ptrBits hwf hb
    have hb' : (hashmapGrow fs m).count ≤ 6 * 2 ^ (hashmapGrow fs m).bucketBits + 1 := by
      show (hashmapGrowAux fs ptrBits m).count
          ≤ 6 * 2 ^ (hashmapGrowAux fs ptrBits m).bucketBits + 1
      rw [gcount, gbb]
      have h2 : (2:Nat) ^ m.bucketBits ≤ 2 ^ (m.bucketBits + 1) :=
        Nat.pow_le_pow_right (by norm_num) (by omega)
      omega
    obtain ⟨iwf, ibound, iks, ibb, ilook⟩ := ih (m := hashmapGrow fs m) gwf hb'
    have hstep : hashmapGrowIter fs (n + 1) m = hashmapGrowIter fs n (hashmapGrow fs m) := rfl
    rw [hstep]
    refine ⟨iwf, ibound, ?_, ?_, ?_⟩
    · rw [iks]
      exact gks
    · rw [ibb]
      show (hashmapGrowAux fs ptrBits m).bucketBits + n = m.bucketBits + (n + 1)
      rw [gbb]
      omega
    · intro k w hk hlk
      refine ilook k w ?_ (glook k w hk hlk)
      show k.length = (hashmapGrowAux fs ptrBits m).keySize
      rw [gks]
      exact hk

/-! ## Clear -/

theorem hashmapClear_spec {m : hashmap} (hlen : m.buckets.length = numBuckets m) :
    hashmapClear (some m) = some { m with
      count := 0
      buckets := m.buckets.map (List.map fun _ => emptyBucket m.keySize m.valueSize) } := by
  have hl : m.buckets.length ≤ 1 <<< m.bucketBits := le_of_eq hlen
  simp only [hashmapClear]
  rw [List.take_of_length_le hl, List.drop_eq_nil_of_le hl, List.append_nil]

theorem hashmapClear_occupied (m : hashmap) :
    hashmapOccupied { m with
      count := 0
      buckets := m.buckets.map (List.map fun _ => emptyBucket m.keySize m.valueSize) } = 0 := by
  simp only [hashmapOccupied]
  rw [List.sum_eq_zero]
  intro x hx
  simp only [List.map_map, List.mem_map, Function.comp] at hx
  obtain ⟨c, _, rfl⟩ := hx
  rw [List.sum_eq_zero]
  intro y hy
  simp only [List.map_map, List.mem_map, Function.comp] at hy
  obtain ⟨b, _, rfl⟩ := hy
  show bucketOccupied (emptyBucket m.keySize m.valueSize) = 0
  simp [bucketOccupied, emptyBucket, List.filter_replicate, emptySlot_tophash]

/-! ## The bucket-bits selection loop -/

theorem hashmapMakeBits_spec (hint : Nat) : ∀ d b, ptrBits - b ≤ d →
    ¬(hashmapHasSpaceToGrow (hashmapMakeBits hint b) = true ∧
      hashmapOverLoadFactor hint (hashmapMakeBits hint b) = true) ∧
    b ≤ hashmapMakeBits hint b ∧
    ∀ c, b ≤ c → c < hashmapMakeBits hint b →
      hashmapHasSpaceToGrow c = true ∧ hashmapOverLoadFactor hint c = true := by
  intro d
  induction d with
  | zero =>
    intro b hb
    have hsp : hashmapHasSpaceToGrow b = false := by
      simp only [hashmapHasSpaceToGrow, ptrBits, decide_eq_false_iff_not] at *
      omega
    have heq : hashmapMakeBits hint b = b := by
      rw [hashmapMakeBits.eq_def, if_neg (by rw [hsp]; simp)]
    rw [heq]
    exact ⟨by rw [hsp]; simp, le_refl b, fun c h1 h2 => absurd (lt_of_le_of_lt h1 h2) (lt_irrefl b)⟩
  | succ d ih =>
    intro b hb
    by_cases hc : (hashmapHasSpaceToGrow b && hashmapOverLoadFactor hint b) = true
    · have hcc := hc
      simp only [Bool.and_eq_true] at hcc
      have hsp : b ≤ ptrBits - 3 := by
        have := hcc.1
        simp only [hashmapHasSpaceToGrow, decide_eq_true_eq] at this
        exact this
      have heq : hashmapMakeBits hint b = hashmapMakeBits hint (b + 1) := by
        rw [hashmapMakeBits.eq_def, if_pos hc]
      obtain ⟨ih1, ih2, ih3⟩ := ih (b + 1) (by simp only [ptrBits] at *; omega)
      rw [heq]
      refine ⟨ih1, by omega, ?_⟩
      intro c h1 h2
      rcases Nat.eq_or_lt_of_le h1 with rfl | h1'
      · exact hcc
      · exact ih3 c h1' h2
    · have heq : hashmapMakeBits hint b = b := by
        rw [hashmapMakeBits.eq_def, if_neg hc]
      rw [heq]
      refine ⟨?_, le_refl b, fun c h1 h2 => absurd (lt_of_le_of_lt h1 h2) (lt_irrefl b)⟩
      intro hand
      exact hc (by rw [hand.1, hand.2]; rfl)

theorem delete_then_find_none {m : hashmap} (hwf : m.WF) {k : List Nat}
    (hk : k.length = m.keySize) {H : Nat} {q : Nat × Nat}
    (hfind : chainFindSlot (slotMatches m.keyEqual m.keySize k (hashmapTopHash H))
      (m.buckets.getD (hashmapBucketIndex m H) []) = some q) :
    chainFindSlot (slotMatches m.keyEqual m.keySize k (hashmapTopHash H))
      ((m.buckets.set (hashmapBucketIndex m H)
          (chainModifySlot (m.buckets.getD (hashmapBucketIndex m H) []) q
            (fun s =>
              { tophash := 0
                key := memzero s.key m.keySize
                val := memzero s.val m.valueSize }))).getD (hashmapBucketIndex m H) [])
      = none := by
  have hsh := hwf.toWFShape
  have hidx : hashmapBucketIndex m H < m.buckets.length := by
    rw [hsh.bucketsLength]; exact hashmapBucketIndex_lt m H
  rw [getD_set_self hidx]
  obtain ⟨h1, h2, hp⟩ := chainFindSlot_some hfind
  obtain ⟨bq, hbq, hsq⟩ := chainGetSlot_mem h1 h2
  have hcm : m.buckets.getD (hashmapBucketIndex m H) [] ∈ m.buckets := getD_mem hidx
  have hqkeyl : (chainGetSlot (m.buckets.getD (hashmapBucketIndex m H) []) q).key.length
      = m.keySize := hsh.keyLength _ hcm bq hbq _ hsq
  have hpand := hp
  rw [hwf.keyEq] at hpand
  simp only [slotMatches, Bool.and_eq_true, beq_iff_eq] at hpand
  have hqkey : (chainGetSlot (m.buckets.getD (hashmapBucketIndex m H) []) q).key = k :=
    ((memequal_iff hk hqkeyl).mp hpand.2).symm
  have hqocc : (chainGetSlot (m.buckets.getD (hashmapBucketIndex m H) []) q).tophash ≠ 0 := by
    rw [hpand.1]; exact hashmapTopHash_ne_zero H
  obtain ⟨l1, l2, he1, he2⟩ := chainEntries_modify_occ_empty m.keySize m.valueSize
    (f := fun s =>
      { tophash := 0
        key := memzero s.key m.keySize
        val := memzero s.val m.valueSize }) h1 h2 hqocc rfl
  have hfst : (slotEntry m.keySize m.valueSize
      (chainGetSlot (m.buckets.getD (hashmapBucketIndex m H) []) q)).1 = k := by
    simp only [slotEntry]
    rw [hqkey, memcpy_full (by simp) hk]
  have hnd := chain_keys_nodup hwf hidx
  rw [he1, List.map_append, List.map_cons, hfst, List.nodup_middle] at hnd
  have hknotin : k ∉ l1.map Prod.fst ++ l2.map Prod.fst := (List.nodup_cons.mp hnd).1
  rw [hwf.keyEq]
  refine find_none_of_key_not_mem m.valueSize ?_ hk (hashmapTopHash_ne_zero H) ?_
  · intro b hb s hs
    rcases List.mem_or_eq_of_mem_set hb with hb' | rfl
    · exact hsh.keyLength _ hcm b hb' s hs
    · rcases List.mem_or_eq_of_mem_set hs with hs' | rfl
      · by_cases hq1 : q.1 < (m.buckets.getD (hashmapBucketIndex m H) []).length
        · exact hsh.keyLength _ hcm _ (getD_mem hq1) s hs'
        · rw [List.getD_eq_default _ _ (by omega)] at hs'
          simp at hs'
      · show (memzero _ _).length = _
        rw [memzero_full hqkeyl, List.length_replicate]
  · intro w hw
    rw [he2] at hw
    have hkmem : k ∈ (l1 ++ l2).map Prod.fst := List.mem_map.mpr ⟨(k, w), hw, rfl⟩
    rw [List.map_append] at hkmem
    exact hknotin hkmem

/-! ## The claims -/

/-- C2: reads on a nil map return without failure — every `get` discipline
zeroes the caller's `valueSize` bytes of the output buffer and reports
false, `len` reports 0, `delete` and `clear` do nothing and `next` reports
false — while every `set` discipline on a nil map is the fatal nil-map
panic. -/
theorem nilMap_reads_ok_sets_panic (hash32 : ByteHash) (fs : hashmap → Nat)
    (ih : List Nat → Nat → Nat) (k v buf : List Nat) (vsz H : Nat) (it : hashmapIterator) :
    hashmapGet none k buf vsz H = (memzero buf vsz, false) ∧
    hashmapBinaryGet hash32 none k buf vsz = (memzero buf vsz, false) ∧
    hashmapStringGet hash32 none k buf vsz = (memzero buf vsz, false) ∧
    hashmapInterfaceGet ih none k buf vsz = (memzero buf vsz, false) ∧
    hashmapLen none = 0 ∧
    hashmapDelete none k H = none ∧
    hashmapBinaryDelete hash32 none k = none ∧
    hashmapClear none = none ∧
    hashmapNext none it k v = (it, k, v, false) ∧
    hashmapBinarySet hash32 fs none k v = .error .nilMapPanic ∧
    hashmapStringSet hash32 fs none k v = .error .nilMapPanic ∧
    hashmapInterfaceSet ih fs none k v = .error .nilMapPanic :=
  ⟨rfl, rfl, rfl, rfl, rfl, rfl, rfl, rfl, rfl, rfl, rfl, rfl⟩

/-- C7: clearing a nil table is a no-op; clearing a table whose primary
array has its declared length zeroes `count`, replaces every bucket of every
chain by the zero bucket (the eight tophash bytes and the whole key/value
region zeroed), and keeps the capacity (`bucketBits`), the bucket array
identity, the seed and the two sizes unchanged. -/
theorem clear_zeroes_and_preserves {m : hashmap}
    (hlen : m.buckets.length = numBuckets m) :
    ∃ m', hashmapClear (some m) = some m' ∧
      m'.count = 0 ∧
      hashmapOccupied m' = 0 ∧
      m'.buckets = m.buckets.map (List.map fun _ => emptyBucket m.keySize m.valueSize) ∧
      m'.bucketBits = m.bucketBits ∧ m'.bucketsId = m.bucketsId ∧ m'.seed = m.seed ∧
      m'.keySize = m.keySize ∧ m'.valueSize = m.valueSize ∧
      hashmapClear none = none :=
  ⟨_, hashmapClear_spec hlen, rfl, hashmapClear_occupied m, rfl, rfl, rfl, rfl,
    rfl, rfl, rfl⟩

/-- C8: make returns a fresh table — `count` 0 and a zero-filled primary
array of `2 ^ bucketBits` buckets — whose `bucketBits` is the smallest `b`
at which the selection loop stops: either `b` has reached the growth ceiling
or `sizeHint` entries do not exceed the load-factor threshold `6 * 2 ^ b`. -/
theorem make_fresh_minimal_bits (h32 : ByteHash) (ih : List Nat → Nat → Nat → Nat)
    (ie : List Nat → List Nat → Nat → Bool) (ks vs hint seed bid : Nat) :
    (hashmapMake h32 ih ie ks vs hint seed bid .binary).count = 0 ∧
    (hashmapMake h32 ih ie ks vs hint seed bid .binary).buckets
      = List.replicate (2 ^ (hashmapMake h32 ih ie ks vs hint seed bid .binary).bucketBits)
          [emptyBucket ks vs] ∧
    (hashmapHasSpaceToGrow (hashmapMake h32 ih ie ks vs hint seed bid .binary).bucketBits
        = false ∨
      hint ≤ 6 * 2 ^ (hashmapMake h32 ih ie ks vs hint seed bid .binary).bucketBits) ∧
    (∀ b, b < (hashmapMake h32 ih ie ks vs hint seed bid .binary).bucketBits →
      hashmapHasSpaceToGrow b = true ∧ 6 * 2 ^ b < hint) := by
  obtain ⟨hstop, -, hmin⟩ := hashmapMakeBits_spec hint ptrBits 0 (by omega)
  refine ⟨rfl, ?_, ?_, ?_⟩
  · show List.replicate (1 <<< hashmapMakeBits hint 0) _
      = List.replicate (2 ^ hashmapMakeBits hint 0) _
    rw [Nat.shiftLeft_eq, one_mul]
  · rcases not_and_or.mp hstop with h | h
    · exact Or.inl (Bool.not_eq_true _ ▸ Bool.eq_false_iff.mpr (fun hh => h hh))
    · refine Or.inr ?_
      have h' : ¬ (6 <<< hashmapMakeBits hint 0 < hint) := by
        intro hh
        exact h (by simp [hashmapOverLoadFactor, hh])
      rw [Nat.shiftLeft_eq] at h'
      show hint ≤ 6 * 2 ^ hashmapMakeBits hint 0
      omega
  · intro b hb
    obtain ⟨hsp, hov⟩ := hmin b (Nat.zero_le b) hb
    refine ⟨hsp, ?_⟩
    simp only [hashmapOverLoadFactor, decide_eq_true_eq, Nat.shiftLeft_eq] at hov
    omega

/-- C4: the count invariant — after make, after a set with the table's own
hash, after delete and after clear, `count` equals the number of occupied
(non-zero tophash) slots over all primary and overflow buckets, and `len`
reports exactly `count`. -/
theorem count_invariant {fs : hashmap → Nat} {m : hashmap} (hwf : m.WF) (hload : m.loadOK)
    {k v : List Nat} (hk : k.length = m.keySize) (hv : v.length = m.valueSize)
    (h32 : ByteHash) (ih : List Nat → Nat → Nat → Nat)
    (ie : List Nat → List Nat → Nat → Bool) (ks vs hint seed bid H : Nat) :
    (hashmapMake h32 ih ie ks vs hint seed bid .binary).count
      = hashmapOccupied (hashmapMake h32 ih ie ks vs hint seed bid .binary) ∧
    (hashmapSet fs m k v (m.keyHash k m.keySize m.seed)).count
      = hashmapOccupied (hashmapSet fs m k v (m.keyHash k m.keySize m.seed)) ∧
    (∀ m', hashmapDelete (some m) k H = some m' → m'.count = hashmapOccupied m') ∧
    (∃ m', hashmapClear (some m) = some m' ∧ m'.count = 0 ∧ hashmapOccupied m' = 0) ∧
    hashmapLen (some m) = m.count := by
  refine ⟨(hashmapMake_WF h32 ih ie ks vs hint seed bid).1.countInv, ?_, ?_, ?_, rfl⟩
  · exact (hashmapSet_WF fs hwf hload hk hv).1.countInv
  · intro m' hdel
    obtain ⟨m'', hdel'', hwf'', -⟩ := hashmapDelete_WF hwf k H
    rw [hdel''] at hdel
    cases hdel
    exact hwf''.countInv
  · exact ⟨_, hashmapClear_spec hwf.bucketsLength, rfl, hashmapClear_occupied m⟩

/-- C6: delete is idempotent — on a nil map trivially, and on a well-formed
table the second delete's lookup walk finds no matching occupied slot
(the only slot holding the key was zeroed), so the second delete changes
nothing and the state is byte-for-byte that of a single delete. -/
theorem delete_idempotent {m : hashmap} (hwf : m.WF) {k : List Nat}
    (hk : k.length = m.keySize) (H : Nat) :
    hashmapDelete (hashmapDelete (some m) k H) k H = hashmapDelete (some m) k H ∧
    hashmapDelete (hashmapDelete none k H) k H = hashmapDelete none k H := by
  refine ⟨?_, rfl⟩
  cases hfind : chainFindSlot (slotMatches m.keyEqual m.keySize k (hashmapTopHash H))
      (m.buckets.getD (hashmapBucketIndex m H) []) with
  | none =>
    rw [hashmapDelete_not_found hfind, hashmapDelete_not_found hfind]
  | some q =>
    rw [hashmapDelete_found hfind]
    exact hashmapDelete_not_found (delete_then_find_none hwf hk hfind)

/-- C1: the set/get roundtrip through the binary-key wrappers: on a
well-formed, load-bounded table whose hash operator is the wrapper's
`hash32`, after `set` of a key of the table's key size with a value of the
table's value size, a `get` of the same key reports true and the output
buffer holds exactly the value. -/
theorem set_get_roundtrip {h32 : ByteHash} {fs : hashmap → Nat} {m : hashmap}
    (hwf : m.WF) (hload : m.loadOK) (hkh : m.keyHash = h32)
    {k v buf : List Nat} (hk : k.length = m.keySize) (hv : v.length = m.valueSize)
    (hbuf : buf.length = m.valueSize) (vsz : Nat) :
    ∃ m', hashmapBinarySet h32 fs (some m) k v = .ok m' ∧
      hashmapBinaryGet h32 (some m') k buf vsz = (v, true) := by
  simp only [hashmapBinarySet, hashmapBinaryGet]
  rw [← hkh]
  obtain ⟨swf, sload, slook, sks, svs, skh⟩ := hashmapSet_WF fs hwf hload hk hv
  refine ⟨_, rfl, ?_⟩
  have hbuf' : buf.length
      = (hashmapSet fs m k v (m.keyHash k m.keySize m.seed)).valueSize := by
    rw [svs]; exact hbuf
  have hv' : v.length
      = (hashmapSet fs m k v (m.keyHash k m.keySize m.seed)).valueSize := by
    rw [svs]; exact hv
  rw [hashmapLookupOwn] at slook
  rw [skh] at slook
  simp only [hashmapGet]
  rw [slook]
  show (memcpy buf v _, true) = (v, true)
  rw [memcpy_full hbuf' hv']

/-- C3: a set triggers a grow exactly when, on entry, `count` exceeds
`6 * 2 ^ bucketBits` and `bucketBits` has not passed the ceiling
`ptrBits - 3`; the grown table has `bucketBits + 1` and the freshly drawn
seed; and after any number of grows of a well-formed, load-bounded table
every stored binding is still retrievable. -/
theorem grow_trigger_fresh_preserves {fs : hashmap → Nat} {m : hashmap}
    (hwf : m.WF) (hload : m.count ≤ 6 * 2 ^ m.bucketBits + 1) :
    (∀ k v H, hashmapSet fs m k v H =
      if m.bucketBits ≤ ptrBits - 3 ∧ 6 * 2 ^ m.bucketBits < m.count then
        hashmapSetNoGrow (hashmapGrowAux fs (ptrBits - 1) m) k v
          ((hashmapGrowAux fs (ptrBits - 1) m).keyHash k
            (hashmapGrowAux fs (ptrBits - 1) m).keySize
            (hashmapGrowAux fs (ptrBits - 1) m).seed)
      else hashmapSetNoGrow m k v H) ∧
    (hashmapGrow fs m).bucketBits = m.bucketBits + 1 ∧
    (hashmapGrow fs m).seed = fs m ∧
    ∀ n k w, k.length = m.keySize → hashmapLookupOwn m k = some w →
      hashmapLookupOwn (hashmapGrowIter fs n m) k = some w := by
  obtain ⟨-, -, ⟨gbb, gseed, -, -, -, -, -⟩, -, -⟩ :=
    hashmapGrowAux_WF fs ptrBits hwf hload
  refine ⟨?_, gbb, gseed, fun n k w hkl hl =>
    (hashmapGrowIter_WF fs n hwf hload).2.2.2.2 k w hkl hl⟩
  intro k v H
  rw [hashmapSet_eq_branches]
  by_cases hc : m.bucketBits ≤ ptrBits - 3 ∧ 6 * 2 ^ m.bucketBits < m.count
  · rw [if_pos hc, if_pos]
    simp only [hashmapHasSpaceToGrow, hashmapOverLoadFactor, Bool.and_eq_true,
      decide_eq_true_eq, Nat.shiftLeft_eq]
    exact hc
  · rw [if_neg hc, if_neg]
    simp only [hashmapHasSpaceToGrow, hashmapOverLoadFactor, Bool.and_eq_true,
      decide_eq_true_eq, Nat.shiftLeft_eq]
    exact hc

/-- C10: get always fully overwrites the output buffer — on a hit with the
stored value bytes, on a miss with zeros — and against a non-nil table the
number of bytes written is the table's own `valueSize` field, the caller's
`valueSize` argument being used only in the nil branch (the result does not
depend on it). -/
theorem get_overwrites_buffer (m : hashmap) (k buf : List Nat) (vsz vsz2 H : Nat) :
    hashmapGet none k buf vsz H = (memzero buf vsz, false) ∧
    (∀ v, hashmapLookup m k H = some v →
      hashmapGet (some m) k buf vsz H = (memcpy buf v m.valueSize, true)) ∧
    (hashmapLookup m k H = none →
      hashmapGet (some m) k buf vsz H = (memzero buf m.valueSize, false)) ∧
    hashmapGet (some m) k buf vsz H = hashmapGet (some m) k buf vsz2 H ∧
    (∀ v, hashmapLookup m k H = some v → v.length = m.valueSize →
      buf.length = m.valueSize → (hashmapGet (some m) k buf vsz H).1 = v) ∧
    (hashmapLookup m k H = none → buf.length = m.valueSize →
      (hashmapGet (some m) k buf vsz H).1 = List.replicate m.valueSize 0) := by
  refine ⟨rfl, ?_, ?_, ?_, ?_, ?_⟩
  · intro v hl
    simp only [hashmapGet, hl]
  · intro hl
    simp only [hashmapGet, hl]
  · simp only [hashmapGet]
  · intro v hl hvl hbl
    simp only [hashmapGet, hl]
    exact memcpy_full hbl hvl
  · intro hl hbl
    simp only [hashmapGet, hl]
    exact memzero_full hbl

/-- C5: one next call that reaches an occupied slot of its snapshot: if the
snapshot's bucket array is still the map's current one, the slot's key and
value are copied directly into the output buffers and the call reports true;
otherwise the copied key is looked up again in the live table — on a hit the
call reports that key with the table's current value, on a miss the slot is
skipped and the call continues from the following slot. -/
theorem next_occupied_slot (m : hashmap) (it : hashmapIterator)
    (keyBuf valBuf : List Nat) (sid : Nat) (snap : List hashmapChain) (pos : Nat × Nat)
    (hbk : it.buckets = some (sid, snap))
    (hpos : it.bucket = some pos)
    (hbi : it.bucketIndex < 8)
    (hocc : (iterSlotAt (if sid == m.bucketsId then m.buckets else snap) pos
        it.bucketIndex).tophash ≠ 0) :
    (sid = m.bucketsId →
      hashmapNext (some m) it keyBuf valBuf =
        ({ buckets := some (sid, snap), numBuckets := it.numBuckets,
           bucketNumber := it.bucketNumber, bucket := some pos,
           bucketIndex := it.bucketIndex + 1 },
         memcpy keyBuf (iterSlotAt m.buckets pos it.bucketIndex).key m.keySize,
         memcpy valBuf (iterSlotAt m.buckets pos it.bucketIndex).val m.valueSize,
         true)) ∧
    (sid ≠ m.bucketsId →
      ∀ r : List Nat × Bool,
        r = hashmapGet (some m)
              (memcpy keyBuf (iterSlotAt snap pos it.bucketIndex).key m.keySize)
              valBuf m.valueSize
              (m.keyHash (memcpy keyBuf (iterSlotAt snap pos it.bucketIndex).key m.keySize)
                m.keySize m.seed) →
        (r.2 = true →
          hashmapNext (some m) it keyBuf valBuf =
            ({ buckets := some (sid, snap), numBuckets := it.numBuckets,
               bucketNumber := it.bucketNumber, bucket := some pos,
               bucketIndex := it.bucketIndex + 1 },
             memcpy keyBuf (iterSlotAt snap pos it.bucketIndex).key m.keySize, r.1, true)) ∧
        (r.2 = false →
          hashmapNext (some m) it keyBuf valBuf =
            hashmapNext (some m) { it with bucketIndex := it.bucketIndex + 1 }
              (memcpy keyBuf (iterSlotAt snap pos it.bucketIndex).key m.keySize) r.1)) := by
  constructor
  · intro hid
    subst hid
    simp only [beq_self_eq_true, if_true] at hocc
    have hb0 : ((iterSlotAt m.buckets pos it.bucketIndex).tophash == 0) = false :=
      beq_eq_false_iff_ne.mpr hocc
    simp only [hashmapNext, hbk, hpos, beq_self_eq_true, if_true]
    rw [hashmapNextLoop.eq_def]
    rw [if_neg (by omega : ¬ 8 ≤ it.bucketIndex)]
    simp only [hb0, Bool.false_eq_true, if_false, if_true]
  · intro hne r hr
    have hfalse : (sid == m.bucketsId) = false := beq_eq_false_iff_ne.mpr hne
    simp only [hfalse, Bool.false_eq_true, if_false] at hocc
    have hb0 : ((iterSlotAt snap pos it.bucketIndex).tophash == 0) = false :=
      beq_eq_false_iff_ne.mpr hocc
    constructor
    · intro hr2
      simp only [hashmapNext, hbk, hpos, hfalse, Bool.false_eq_true, if_false]
      rw [hashmapNextLoop.eq_def]
      rw [if_neg (by omega : ¬ 8 ≤ it.bucketIndex)]
      simp only [hb0, Bool.false_eq_true, if_false]
      rw [← hr, hr2]
      simp only [if_true]
    · intro hr2
      simp only [hashmapNext, hbk, hpos, hfalse, Bool.false_eq_true, if_false]
      rw [hashmapNextLoop.eq_def]
      rw [if_neg (by omega : ¬ 8 ≤ it.bucketIndex)]
      simp only [hb0, Bool.false_eq_true, if_false]
      rw [← hr, hr2]
      simp only [Bool.false_eq_true, if_false]

theorem hashmapLookup_buckets_count_seed (m : hashmap) (bl : List hashmapChain)
    (cnt sd : Nat) (k : List Nat) (H : Nat) :
    hashmapLookup { m with seed := sd, count := cnt, buckets := bl } k H =
      (chainFindSlot (slotMatches m.keyEqual m.keySize k (hashmapTopHash H))
          (bl.getD (hashmapBucketIndex m H) [])).map
        (fun p => (chainGetSlot (bl.getD (hashmapBucketIndex m H) []) p).val) := rfl

/-- C9: in the interface discipline the structural hash of a float whose bit
pattern is negative zero equals the hash of positive zero (32- and 64-bit),
and in a float64-keyed interface table, after a set of key -0.0 with the
one-byte value 7, a get of key 0.0 returns (7, true). -/
theorem float_negzero_hash_and_get (h32 : ByteHash) (fs : hashmap → Nat) (seed bid : Nat) :
    hashmapFloat32Hash h32 0x80000000 seed = hashmapFloat32Hash h32 0 seed ∧
    hashmapFloat64Hash h32 0x8000000000000000 seed = hashmapFloat64Hash h32 0 seed ∧
    ∃ t, hashmapInterfaceSet (hashmapFloat64InterfaceHash h32) fs
        (some (hashmapMake h32
          (fun kk _ sd => hashmapFloat64InterfaceHash h32 kk sd)
          hashmapFloat64InterfaceEqual 8 1 0 seed bid .interface))
        (natToBytesLE 8 0x8000000000000000) [7] = .ok t ∧
      hashmapInterfaceGet (hashmapFloat64InterfaceHash h32) (some t)
        (natToBytesLE 8 0) [0] 1 = ([7], true) := by
  refine ⟨rfl, rfl, ?_⟩
  set t0 := hashmapMake h32 (fun kk _ sd => hashmapFloat64InterfaceHash h32 kk sd)
    hashmapFloat64InterfaceEqual 8 1 0 seed bid .interface with ht0
  have hmb : hashmapMakeBits 0 0 = 0 := by
    rw [hashmapMakeBits.eq_def]
    simp [hashmapOverLoadFactor]
  have hbb : t0.bucketBits = 0 := hmb
  have hbuckets : t0.buckets = [[emptyBucket 8 1]] := by
    show List.replicate (1 <<< hashmapMakeBits 0 0) [emptyBucket 8 1] = _
    rw [hmb]
    rfl
  have hcnt : t0.count = 0 := rfl
  have hsd : t0.seed = seed := rfl
  have hidx : ∀ H, hashmapBucketIndex t0 H = 0 := by
    intro H
    rw [hashmapBucketIndex, numBuckets, hbb]
    simp
  have hH1 : hashmapFloat64InterfaceHash h32 (natToBytesLE 8 0x8000000000000000) seed
      = h32 (natToBytesLE 8 0) 8 seed := by rfl
  have hH0 : hashmapFloat64InterfaceHash h32 (natToBytesLE 8 0) seed
      = h32 (natToBytesLE 8 0) 8 seed := by rfl
  set h := h32 (natToBytesLE 8 0) 8 seed with hh
  have hnogrow : hashmapSet fs t0 (natToBytesLE 8 0x8000000000000000) [7] h
      = hashmapSetNoGrow t0 (natToBytesLE 8 0x8000000000000000) [7] h := by
    rw [hashmapSet]
    apply hashmapSetAux_no_grow
    rw [hcnt]
    simp
  have hchain : t0.buckets.getD 0 [] = [emptyBucket 8 1] := by
    rw [hbuckets]
    rfl
  have hfindm : chainFindSlot (slotMatches t0.keyEqual t0.keySize
      (natToBytesLE 8 0x8000000000000000) (hashmapTopHash h))
      (t0.buckets.getD (hashmapBucketIndex t0 h) []) = none := by
    rw [hidx, hchain]
    have hb : bucketFindSlot (slotMatches t0.keyEqual t0.keySize
        (natToBytesLE 8 0x8000000000000000) (hashmapTopHash h)) (emptyBucket 8 1) = none := by
      apply bucketFindSlot_replicate_none
      simp [slotMatches, emptySlot, zero_beq_topHash]
    simp [chainFindSlot, hb]
  have hfinde : chainFindSlot slotEmpty (t0.buckets.getD (hashmapBucketIndex t0 h) [])
      = some (0, 0) := by
    rw [hidx, hchain]
    rfl
  have hinsert := hashmapSetNoGrow_insert (m := t0)
    (k := natToBytesLE 8 0x8000000000000000) (v := [7]) (H := h) hfindm hfinde
  refine ⟨_, rfl, ?_⟩
  show hashmapGet
      (some (hashmapSet fs t0 (natToBytesLE 8 0x8000000000000000) [7]
        (hashmapFloat64InterfaceHash h32 (natToBytesLE 8 0x8000000000000000) t0.seed)))
      (natToBytesLE 8 0) [0] 1
      (hashmapFloat64InterfaceHash h32 (natToBytesLE 8 0)
        (hashmapSet fs t0 (natToBytesLE 8 0x8000000000000000) [7]
          (hashmapFloat64InterfaceHash h32 (natToBytesLE 8 0x8000000000000000) t0.seed)).seed)
      = ([7], true)
  rw [show t0.seed = seed from hsd, hH1, hnogrow, hinsert]
  rw [hidx, hchain]
  have hseteq : (({ t0 with
      count := t0.count + 1
      buckets := (t0.buckets.set 0
        (chainModifySlot [emptyBucket 8 1] (0, 0)
          (fun s =>
            { tophash := hashmapTopHash h
              key := memcpy s.key (natToBytesLE 8 0x8000000000000000) t0.keySize
              val := memcpy s.val [7] t0.valueSize }))) } : hashmap)).seed = seed := rfl
  rw [hseteq, hH0]
  have hlook : hashmapLookup ({ t0 with
      seed := seed
      count := t0.count + 1
      buckets := (t0.buckets.set 0
        (chainModifySlot [emptyBucket 8 1] (0, 0)
          (fun s =>
            { tophash := hashmapTopHash h
              key := memcpy s.key (natToBytesLE 8 0x8000000000000000) t0.keySize
              val := memcpy s.val [7] t0.valueSize }))) } : hashmap)
      (natToBytesLE 8 0) h = some [7] := by
    rw [hashmapLookup_buckets_count_seed]
    have hidx2 : hashmapBucketIndex t0 h = 0 := hidx h
    rw [hidx2, hbuckets]
    have hset0 : ([[emptyBucket 8 1]].set 0
        (chainModifySlot [emptyBucket 8 1] (0, 0)
          (fun s =>
            { tophash := hashmapTopHash h
              key := memcpy s.key (natToBytesLE 8 0x8000000000000000) t0.keySize
              val := memcpy s.val [7] t0.valueSize }))).getD 0 []
        = [({ tophash := hashmapTopHash h
              key := [0, 0, 0, 0, 0, 0, 0, 128]
              val := [7] } : hashmapSlot) :: List.replicate 7 (emptySlot 8 1)] := by
      rfl
    rw [hset0]
    have hps : slotMatches t0.keyEqual t0.keySize (natToBytesLE 8 0) (hashmapTopHash h)
        ({ tophash := hashmapTopHash h
           key := [0, 0, 0, 0, 0, 0, 0, 128]
           val := [7] } : hashmapSlot) = true := by
      have hkeq : t0.keyEqual = hashmapFloat64InterfaceEqual := rfl
      simp only [slotMatches, beq_self_eq_true, Bool.true_and, hkeq]
      show hashmapFloat64InterfaceEqual (natToBytesLE 8 0) [0, 0, 0, 0, 0, 0, 0, 128] 8 = true
      decide
    simp only [chainFindSlot, bucketFindSlot, hps, if_true]
    rfl
  simp only [hashmapGet]
  rw [hlook]
  rfl

/-! ## Concrete instances -/

theorem testMap_WF : testMap.WF := by
  refine ⟨⟨by decide, by decide, by decide, by decide⟩, rfl, by decide, by decide,
    by decide, by decide⟩

/-- The C1 theorem applied at the concrete table. -/
theorem set_get_roundtrip_witness :
    testMap.WF ∧ testMap.loadOK ∧ testMap.keyHash = testHash ∧
    ([3] : List Nat).length = testMap.keySize ∧
    ([9] : List Nat).length = testMap.valueSize ∧
    ([0] : List Nat).length = testMap.valueSize ∧
    ∃ m', hashmapBinarySet testHash testFreshSeed (some testMap) [3] [9] = .ok m' ∧
      hashmapBinaryGet testHash (some m') [3] [0] 1 = ([9], true) :=
  ⟨testMap_WF, by intro _; decide, rfl, rfl, rfl, rfl,
   set_get_roundtrip testMap_WF (by intro _; decide) rfl
     (rfl : ([3] : List Nat).length = testMap.keySize)
     (rfl : ([9] : List Nat).length = testMap.valueSize)
     (rfl : ([0] : List Nat).length = testMap.valueSize) 1⟩

/-- The C3 theorem applied at the concrete table. -/
theorem grow_trigger_witness :
    testMap.WF ∧ testMap.count ≤ 6 * 2 ^ testMap.bucketBits + 1 ∧
    (hashmapGrow testFreshSeed testMap).bucketBits = testMap.bucketBits + 1 ∧
    (hashmapGrow testFreshSeed testMap).seed = testFreshSeed testMap :=
  ⟨testMap_WF, by decide,
   (grow_trigger_fresh_preserves testMap_WF (by decide)).2.1,
   (grow_trigger_fresh_preserves testMap_WF (by decide)).2.2.1⟩

/-- The C4 theorem applied at the concrete table. -/
theorem count_invariant_witness :
    testMap.WF ∧ testMap.loadOK ∧
    ([3] : List Nat).length = testMap.keySize ∧
    ([9] : List Nat).length = testMap.valueSize ∧
    (hashmapSet testFreshSeed testMap [3] [9]
        (testMap.keyHash [3] testMap.keySize testMap.seed)).count
      = hashmapOccupied (hashmapSet testFreshSeed testMap [3] [9]
          (testMap.keyHash [3] testMap.keySize testMap.seed)) :=
  ⟨testMap_WF, by intro _; decide, rfl, rfl,
   (count_invariant testMap_WF (by intro _; decide)
      (rfl : ([3] : List Nat).length = testMap.keySize)
      (rfl : ([9] : List Nat).length = testMap.valueSize) testHash
      (fun _ _ _ => 0) (fun _ _ _ => false) 1 1 0 5 0 0).2.1⟩

/-- The C5 theorem applied at the concrete table and iterator. -/
theorem next_occupied_witness :
    testIter.buckets = some (0, [[testBucket]]) ∧
    testIter.bucket = some (0, 0) ∧
    testIter.bucketIndex < 8 ∧
    (iterSlotAt (if 0 == testMap.bucketsId then testMap.buckets else [[testBucket]])
        (0, 0) testIter.bucketIndex).tophash ≠ 0 ∧
    hashmapNext (some testMap) testIter [0] [0] =
      ({ buckets := some (0, [[testBucket]]), numBuckets := testIter.numBuckets,
         bucketNumber := testIter.bucketNumber, bucket := some (0, 0),
         bucketIndex := testIter.bucketIndex + 1 },
       memcpy [0] (iterSlotAt testMap.buckets (0, 0) testIter.bucketIndex).key testMap.keySize,
       memcpy [0] (iterSlotAt testMap.buckets (0, 0) testIter.bucketIndex).val testMap.valueSize,
       true) :=
  ⟨rfl, rfl, by decide, by decide,
   (next_occupied_slot testMap testIter [0] [0] 0 [[testBucket]] (0, 0)
      rfl rfl (by decide) (by decide)).1 rfl⟩

/-- The C6 theorem applied at the concrete table. -/
theorem delete_idempotent_witness :
    testMap.WF ∧ ([3] : List Nat).length = testMap.keySize ∧
    (hashmapDelete (hashmapDelete (some testMap) [3] 658) [3] 658
        = hashmapDelete (some testMap) [3] 658 ∧
     hashmapDelete (hashmapDelete none [3] 658) [3] 658 = hashmapDelete none [3] 658) :=
  ⟨testMap_WF, rfl,
   delete_idempotent testMap_WF (rfl : ([3] : List Nat).length = testMap.keySize) 658⟩

/-- The C7 theorem applied at the concrete table. -/
theorem clear_witness :
    testMap.buckets.length = numBuckets testMap ∧
    (∃ m', hashmapClear (some testMap) = some m' ∧
      m'.count = 0 ∧
      hashmapOccupied m' = 0 ∧
      m'.buckets = testMap.buckets.map
        (List.map fun _ => emptyBucket testMap.keySize testMap.valueSize) ∧
      m'.bucketBits = testMap.bucketBits ∧ m'.bucketsId = testMap.bucketsId ∧
      m'.seed = testMap.seed ∧ m'.keySize = testMap.keySize ∧
      m'.valueSize = testMap.valueSize ∧
      hashmapClear none = none) :=
  ⟨by decide, clear_zeroes_and_preserves (by decide)⟩
